import Mathlib

/-!
Verification of the modeler repository's constraint-workbench engine.

The Python source (sketch-gpt5-0.py, sketch-gpt5-3.py, gpt5-synthesis-2.py,
gpt5-synthesis-3.py) is shallowly embedded here:

* Python floats are modelled as rationals (`ℚ`); the claims under study are
  structural (record shapes, skipping, identity of values), not about
  floating-point rounding.
* Python dicts (which preserve insertion order) are modelled as ordered
  association lists; assigning to an existing key replaces the value in
  place, assigning to a fresh key appends.
* A Python function that can raise is modelled with `Except`/`Option`;
  a `try/except` block is modelled by matching on the result.
* Wall-clock timestamps (`time.time()`) carried by provenance and history
  entries are elided: no claim mentions them.
-/

/-- Lookup in an ordered association list (Python `d[k]` / `d.get(k)`). -/
def aLookup {α : Type} (m : List (String × α)) (k : String) : Option α :=
  match m with
  | [] => none
  | (k', v) :: rest => if k' = k then some v else aLookup rest k

/-- Python dict assignment `d[k] = v`: replace in place when the key is
present (insertion position preserved), append otherwise. -/
def aUpsert {α : Type} (m : List (String × α)) (k : String) (v : α) :
    List (String × α) :=
  if (aLookup m k).isSome then
    m.map (fun p => if p.1 = k then (k, v) else p)
  else
    m ++ [(k, v)]

/-- Python `d.pop(k, None)`: drop the binding for `k` if present. -/
def aRemove {α : Type} (m : List (String × α)) (k : String) :
    List (String × α) :=
  m.filter (fun p => p.1 ≠ k)

/-- The keys of an association list, in order (Python `d.keys()`). -/
def aKeys {α : Type} (m : List (String × α)) : List String :=
  m.map Prod.fst

/-- The values of an association list, in order (Python `d.values()`). -/
def aVals {α : Type} (m : List (String × α)) : List α :=
  m.map Prod.snd

/-- Helper for `splitPath`: scan for the first dot, accumulating the
prefix in reverse. -/
def splitPathAux : List Char → List Char → Option (String × String)
  | [], _ => none
  | c :: cs, acc =>
    if c = '.' then some (String.mk acc.reverse, String.mk cs)
    else splitPathAux cs (c :: acc)

/-- Python `path.split(".", 1)` restricted to the two-part case used by
`_resolve_container`: split at the first dot; `none` when the path has no
dot (in which case the source raises). -/
def splitPath (path : String) : Option (String × String) :=
  splitPathAux path.toList []

/-- Check that `pat` is an initial segment of `s` (used by `strReplace`). -/
def leadMatch : List Char → List Char → Bool
  | [], _ => true
  | _ :: _, [] => false
  | p :: ps, c :: cs => p = c && leadMatch ps cs

/-- Fuelled core of `strReplace`; fuel bounds the number of scan steps so the
recursion is structural in the fuel. -/
def strReplaceAux (pat rep : List Char) : Nat → List Char → List Char
  | 0, s => s
  | _ + 1, [] => []
  | n + 1, c :: cs =>
    if leadMatch pat (c :: cs) then
      rep ++ strReplaceAux pat rep n ((c :: cs).drop pat.length)
    else
      c :: strReplaceAux pat rep n cs

/-- Python `s.replace(pat, rep)`: leftmost non-overlapping replacement of
every occurrence.  The rule templates always use non-empty patterns. -/
def strReplace (s pat rep : String) : String :=
  String.mk (strReplaceAux pat.toList rep.toList (s.toList.length + 1) s.toList)

/-! ## Value model

Python side: `Unknown(hint)`, raw numbers (int/float), and the `Interval`
dataclass whose `__post_init__` swaps inverted bounds. -/

/-- Attribute values: `Unknown{hint}`, a bare number, or an `Interval`. -/
inductive Val : Type
  | unknown (hint : Option String)
  | num (x : ℚ)
  | interval (lo hi : ℚ)
deriving DecidableEq

/-- Source `Interval(lo, hi)` constructor: `__post_init__` swaps inverted bounds. -/
def mkInterval (lo hi : ℚ) : Val :=
  if lo ≤ hi then .interval lo hi else .interval hi lo

/-- Python `==` on stored values.  Numbers and Interval dataclasses compare
by value; `Unknown` has no `__eq__`, so two distinct `Unknown` objects are
unequal (the engine only ever compares a stored value with a freshly
computed one, never an object with itself). -/
def pyEq : Val → Val → Bool
  | .num a, .num b => a = b
  | .interval a b, .interval c d => a = c ∧ b = d
  | _, _ => false

/-- Source `blend(old, target, strength)` from sketch-gpt5-0/3.  `Unknown` (or
`None`) old adopts the target; an `Interval` on either side promotes the
other side to a degenerate interval and interpolates both bounds through
the `Interval` constructor; two numbers interpolate numerically.  A
non-`Unknown` old with an `Unknown` target raises a `TypeError` in Python,
modelled as `none` (the propagation loop never reaches that case). -/
def blend : Val → Val → ℚ → Option Val
  | .unknown _, t, _ => some t
  | .num a, .num b, s => some (.num ((1 - s) * a + s * b))
  | .num a, .interval tl th, s =>
    some (mkInterval ((1 - s) * a + s * tl) ((1 - s) * a + s * th))
  | .interval ol oh, .num b, s =>
    some (mkInterval ((1 - s) * ol + s * b) ((1 - s) * oh + s * b))
  | .interval ol oh, .interval tl th, s =>
    some (mkInterval ((1 - s) * ol + s * tl) ((1 - s) * oh + s * th))
  | .num _, .unknown _, _ => none
  | .interval _ _, .unknown _, _ => none

/-! ## Expression evaluator

`_safe_eval` evaluates a constraint's expression string with `eval` in an
environment exposing only `val`, `min`, `max`, `abs`, `sqrt`, `exp`, `log`
and the `Interval` constructor, returning `None` on any exception.  `Expr`
is the abstract syntax of those expression strings (the rule templates in
the repository place `...` placeholders only inside the path arguments of
`val(...)` calls, so formatting acts on the stored path strings). -/

/-- Abstract syntax of the evaluated expression strings. -/
inductive Expr : Type
  | lit (q : ℚ)
  | val (path : String)
  | name (s : String)
  | add (a b : Expr)
  | sub (a b : Expr)
  | mul (a b : Expr)
  | div (a b : Expr)
  | itv (a b : Expr)
deriving DecidableEq

/-- Runtime values during expression evaluation: Python `None`, a number,
or an `Interval` object. -/
inductive PyV : Type
  | noneV
  | num (q : ℚ)
  | itv (lo hi : ℚ)
deriving DecidableEq

/-- Source `Interval(a, b)` as a `PyV` (constructor swaps inverted bounds). -/
def mkItvP (a b : ℚ) : PyV :=
  if a ≤ b then .itv a b else .itv b a

/-- Python `+` under the source's `Interval.__add__`/`__radd__`;
`None` on either side raises (`.error`). -/
def pyAdd : PyV → PyV → Except Unit PyV
  | .num a, .num b => .ok (.num (a + b))
  | .itv a b, .itv c d => .ok (mkItvP (a + c) (b + d))
  | .itv a b, .num k => .ok (mkItvP (a + k) (b + k))
  | .num k, .itv a b => .ok (mkItvP (a + k) (b + k))
  | _, _ => .error ()

/-- Python `-` under `Interval.__sub__`/`__rsub__`. -/
def pySub : PyV → PyV → Except Unit PyV
  | .num a, .num b => .ok (.num (a - b))
  | .itv a b, .itv c d => .ok (mkItvP (a - d) (b - c))
  | .itv a b, .num k => .ok (mkItvP (a - k) (b - k))
  | .num k, .itv a b => .ok (mkItvP (k - b) (k - a))
  | _, _ => .error ()

/-- Python `*` under `Interval.__mul__`/`__rmul__` (corner products). -/
def pyMul : PyV → PyV → Except Unit PyV
  | .num a, .num b => .ok (.num (a * b))
  | .itv a b, .itv c d =>
    .ok (mkItvP (min (min (a * c) (a * d)) (min (b * c) (b * d)))
                (max (max (a * c) (a * d)) (max (b * c) (b * d))))
  | .itv a b, .num k => .ok (mkItvP (min (a * k) (b * k)) (max (a * k) (b * k)))
  | .num k, .itv a b => .ok (mkItvP (min (a * k) (b * k)) (max (a * k) (b * k)))
  | _, _ => .error ()

/-- Python `/`: only number-by-nonzero-number succeeds (`Interval` defines
no division; dividing by zero raises). -/
def pyDiv : PyV → PyV → Except Unit PyV
  | .num a, .num b => if b = 0 then .error () else .ok (.num (a / b))
  | _, _ => .error ()

/-! ## Core data structures (sketch-gpt5-0.py, mirrored in sketch-gpt5-3.py) -/

/-- A graph node: id, free-form type tag, attribute map. -/
structure Node : Type where
  id : String
  type : String
  attrs : List (String × Val)
deriving DecidableEq

/-- A graph edge: id, type tag, endpoint node ids, attribute map. -/
structure Edge : Type where
  id : String
  type : String
  fromId : String
  toId : String
  attrs : List (String × Val)
deriving DecidableEq

/-- A constraint: target attribute path, expression, blend strength, note. -/
structure Constraint : Type where
  id : String
  target : String
  expr : Expr
  strength : ℚ
  note : Option String
deriving DecidableEq

/-- A node pattern of a rule: variable name, optional type filter, and
attribute-equality filters (the `where` dict). -/
structure NodePat : Type where
  var : String
  type : Option String
  whereAttrs : List (String × Val)
deriving DecidableEq

/-- An edge pattern of a rule: optional variable name (defaults to an
indexed name), optional type filter, optional endpoint variables, and
attribute-equality filters. -/
structure EdgePat : Type where
  var : Option String
  type : Option String
  fromVar : Option String
  toVar : Option String
  whereAttrs : List (String × Val)
deriving DecidableEq

/-- An `ensure_constraint` rule action: target/expr templates, numeric
strength (the source reads it with `float(...)`, without substitution),
optional note. -/
structure RuleAction : Type where
  target : String
  expr : Expr
  strength : ℚ
  note : Option String
deriving DecidableEq

/-- A rule: name, node patterns, edge patterns, actions. -/
structure Rule : Type where
  name : String
  nodePatterns : List NodePat
  edgePatterns : List EdgePat
  actions : List RuleAction
deriving DecidableEq

/-- A provenance entry: operation name and the version stamped on it
(argument snapshots and wall-clock time elided; no claim reads them). -/
structure ProvEntry : Type where
  op : String
  version : Nat
deriving DecidableEq

/-- The Workbench state. -/
structure WB : Type where
  nodes : List (String × Node)
  edges : List (String × Edge)
  constraints : List (String × Constraint)
  rules : List (String × Rule)
  version : Nat
  provenance : List ProvEntry
deriving DecidableEq

/-- The freshly constructed Workbench. -/
def emptyWB : WB :=
  ⟨[], [], [], [], 0, []⟩

/-- Source `_bump`: increment `version` and append a provenance entry. -/
def bump (wb : WB) (op : String) : WB :=
  { wb with
    version := wb.version + 1
    provenance := wb.provenance ++ [⟨op, wb.version + 1⟩] }

/-- Locator for the attribute container a path resolves to. -/
inductive Loc : Type
  | nodeLoc (entId key : String)
  | edgeLoc (entId key : String)
deriving DecidableEq

/-- The entity id of a locator. -/
def Loc.ent : Loc → String
  | .nodeLoc e _ => e
  | .edgeLoc e _ => e

/-- The attribute key of a locator. -/
def Loc.key : Loc → String
  | .nodeLoc _ k => k
  | .edgeLoc _ k => k

/-- Source `_resolve_container`: split the path at the first dot, look the entity
up in nodes then edges, raising `KeyError` (here `.error`) on a dotless
path or an absent entity. -/
def resolveContainer (wb : WB) (path : String) : Except String Loc :=
  match splitPath path with
  | none => .error ("Invalid target path (missing dot): " ++ path)
  | some (ent, key) =>
    if (aLookup wb.nodes ent).isSome then .ok (.nodeLoc ent key)
    else if (aLookup wb.edges ent).isSome then .ok (.edgeLoc ent key)
    else .error ("Entity not found for path: " ++ path)

/-- The attribute map a locator points at. -/
def locAttrs (wb : WB) : Loc → List (String × Val)
  | .nodeLoc e _ =>
    match aLookup wb.nodes e with
    | some n => n.attrs
    | none => []
  | .edgeLoc e _ =>
    match aLookup wb.edges e with
    | some ed => ed.attrs
    | none => []

/-- Write an attribute through a locator (`attrs[key] = value`). -/
def writeLoc (wb : WB) (l : Loc) (v : Val) : WB :=
  match l with
  | .nodeLoc e k =>
    match aLookup wb.nodes e with
    | some n => { wb with nodes := aUpsert wb.nodes e { n with attrs := aUpsert n.attrs k v } }
    | none => wb
  | .edgeLoc e k =>
    match aLookup wb.edges e with
    | some ed => { wb with edges := aUpsert wb.edges e { ed with attrs := aUpsert ed.attrs k v } }
    | none => wb

/-- Source `Workbench.val`: resolve leniently; a raised `KeyError`, an absent
attribute, or a stored `Unknown` all become `None`. -/
def WB.val (wb : WB) (path : String) : Option Val :=
  match resolveContainer wb path with
  | .error _ => none
  | .ok loc =>
    match aLookup (locAttrs wb loc) loc.key with
    | none => none
    | some (.unknown _) => none
    | some v => some v

/-- Source `Workbench.set_val`: resolve (propagating `KeyError`) and assign. -/
def setVal (wb : WB) (path : String) (v : Val) :
    Except String (WB × String × String) :=
  match resolveContainer wb path with
  | .error e => .error e
  | .ok loc => .ok (writeLoc wb loc v, loc.ent, loc.key)

/-- Evaluate an expression against the workbench, as Python `eval` does in
`_safe_eval`'s restricted environment.  `val(path)` yields the stored value
(with `Unknown`/missing already turned into `None` by `Workbench.val`);
a bare unknown name raises `NameError`; arithmetic on `None` raises
`TypeError`; `Interval(...)` with non-number arguments raises inside
`__post_init__`; dividing by zero raises.  Every raise is `.error`. -/
def evalExpr (wb : WB) : Expr → Except Unit PyV
  | .lit q => .ok (.num q)
  | .val p =>
    match wb.val p with
    | none => .ok .noneV
    | some (.num q) => .ok (.num q)
    | some (.interval a b) => .ok (.itv a b)
    | some (.unknown _) => .ok .noneV
  | .name _ => .error ()
  | .add a b =>
    match evalExpr wb a with
    | .error u => .error u
    | .ok x =>
      match evalExpr wb b with
      | .error u => .error u
      | .ok y => pyAdd x y
  | .sub a b =>
    match evalExpr wb a with
    | .error u => .error u
    | .ok x =>
      match evalExpr wb b with
      | .error u => .error u
      | .ok y => pySub x y
  | .mul a b =>
    match evalExpr wb a with
    | .error u => .error u
    | .ok x =>
      match evalExpr wb b with
      | .error u => .error u
      | .ok y => pyMul x y
  | .div a b =>
    match evalExpr wb a with
    | .error u => .error u
    | .ok x =>
      match evalExpr wb b with
      | .error u => .error u
      | .ok y => pyDiv x y
  | .itv a b =>
    match evalExpr wb a with
    | .error u => .error u
    | .ok x =>
      match evalExpr wb b with
      | .error u => .error u
      | .ok y =>
        match x, y with
        | .num p, .num q => .ok (mkItvP p q)
        | _, _ => .error ()

/-- Source `_safe_eval`: any exception is swallowed into `None`; a successful
evaluation to Python `None` is indistinguishable to every caller (both
`propagate_once` and `explain` only test `is None`), so both collapse to
`none` here. -/
def safeEval (wb : WB) (e : Expr) : Option Val :=
  match evalExpr wb e with
  | .error _ => none
  | .ok .noneV => none
  | .ok (.num q) => some (.num q)
  | .ok (.itv a b) => some (.interval a b)

/-! ## Mutating operations -/

/-- Operation return values (the dicts the Python methods return). -/
inductive RVal : Type
  | nodeRes (id type : String) (attrs : List (String × Val))
  | edgeRes (id type fromId toId : String) (attrs : List (String × Val))
  | setRes (entity key : String) (value : Val)
  | cidRes (id : String)
  | removedRes (id : Option String)
  | nameRes (n : String)
  | queryRes (path : String) (value : Option Val) (version : Nat)
  | simRes (steps totalUpdates : Nat)
  | diffRes (entries : List ProvEntry)
deriving DecidableEq

/-- Source `create_node` with an explicit id (the `id=None` branch draws a random
uuid, which has no place in a deterministic model; every claim under study
supplies explicit ids). -/
def createNode (wb : WB) (type id : String) (attrs : List (String × Val)) :
    Except String (WB × RVal) :=
  if (aLookup wb.nodes id).isSome then
    .error ("Node id already exists: " ++ id)
  else
    let wb1 := { wb with nodes := wb.nodes ++ [(id, ⟨id, type, attrs⟩)] }
    .ok (bump wb1 "create_node", .nodeRes id type attrs)

/-- The auto-id search loop of `create_edge`: try `base#1`, `base#2`, ...
until a free id is found; the fuel (one more than the number of edges)
always suffices by pigeonhole. -/
def freshEdgeAux (edges : List (String × Edge)) (base : String) :
    Nat → Nat → String
  | 0, i => base ++ "#" ++ toString i
  | n + 1, i =>
    let cand := base ++ "#" ++ toString i
    if (aLookup edges cand).isNone then cand
    else freshEdgeAux edges base n (i + 1)

/-- The edge id `create_edge` uses: the explicit one, or the auto-derived
`from->to:type` with a numeric suffix on collision. -/
def edgeIdFor (edges : List (String × Edge)) (type fromId toId : String)
    (id : Option String) : String :=
  match id with
  | some i => i
  | none =>
    let base := fromId ++ "->" ++ toId ++ ":" ++ type
    if (aLookup edges base).isNone then base
    else freshEdgeAux edges base (edges.length + 1) 1

/-- Source `create_edge`: endpoints must exist; a missing id is auto-derived. -/
def createEdge (wb : WB) (type fromId toId : String) (id : Option String)
    (attrs : List (String × Val)) : Except String (WB × RVal) :=
  if (aLookup wb.nodes fromId).isNone ∨ (aLookup wb.nodes toId).isNone then
    .error "from_id and to_id must be existing node ids"
  else
    let eid := edgeIdFor wb.edges type fromId toId id
    if (aLookup wb.edges eid).isSome then
      .error ("Edge id already exists: " ++ eid)
    else
      let wb1 := { wb with edges := wb.edges ++ [(eid, ⟨eid, type, fromId, toId, attrs⟩)] }
      .ok (bump wb1 "create_edge", .edgeRes eid type fromId toId attrs)

/-- The optional confidence companion write of `set_attr`: re-resolve the
target and store `<key>__confidence` beside it. -/
def confWrite (wb1 : WB) (target : String) (confidence : Option ℚ) : WB :=
  match confidence with
  | none => wb1
  | some c =>
    match resolveContainer wb1 target with
    | .ok (.nodeLoc e k) => writeLoc wb1 (.nodeLoc e (k ++ "__confidence")) (.num c)
    | .ok (.edgeLoc e k) => writeLoc wb1 (.edgeLoc e (k ++ "__confidence")) (.num c)
    | .error _ => wb1

/-- Source `set_attr`: write through `set_val`, optionally store the confidence
companion attribute, then log. -/
def setAttr (wb : WB) (target : String) (v : Val) (confidence : Option ℚ) :
    Except String (WB × RVal) :=
  match setVal wb target v with
  | .error e => .error e
  | .ok (wb1, ent, key) =>
    .ok (bump (confWrite wb1 target confidence) "set_attr", .setRes ent key v)

/-- Source `upsert_constraint`: create or update in place, keyed by id, then log. -/
def upsertConstraint (wb : WB) (id target : String) (expr : Expr)
    (strength : ℚ) (note : Option String) : WB × RVal :=
  let cs := aUpsert wb.constraints id ⟨id, target, expr, strength, note⟩
  (bump { wb with constraints := cs } "upsert_constraint", .cidRes id)

/-- Source `assert_constraint` with an explicit id (the `id=None` branch draws a
random uuid): raises when the id is taken, otherwise inserts and logs. -/
def assertConstraint (wb : WB) (id target : String) (expr : Expr)
    (strength : ℚ) (note : Option String) : Except String (WB × RVal) :=
  if (aLookup wb.constraints id).isSome then
    .error ("Constraint id already exists: " ++ id)
  else
    let cs := wb.constraints ++ [(id, ⟨id, target, expr, strength, note⟩)]
    .ok (bump { wb with constraints := cs } "assert_constraint", .cidRes id)

/-- Source `remove_constraint`: delete and log when present; when absent, return
without logging (no `_bump`). -/
def removeConstraint (wb : WB) (id : String) : WB × RVal :=
  if (aLookup wb.constraints id).isSome then
    (bump { wb with constraints := aRemove wb.constraints id } "remove_constraint",
     .removedRes (some id))
  else
    (wb, .removedRes none)

/-- Source `define_rule`: register or overwrite the rule under its name, log. -/
def defineRule (wb : WB) (r : Rule) : WB × RVal :=
  (bump { wb with rules := aUpsert wb.rules r.name r } "define_rule",
   .nameRes r.name)

/-! ## Rule pattern matching (`_match_rule` and friends) -/

/-- The binding environment: variable name to bound entity id. -/
abbrev Env := List (String × String)

/-- Source `_node_candidates`: nodes passing the type filter and the
attribute-equality `where` filters (a missing attribute never matches). -/
def nodeCandidates (nodes : List (String × Node)) (pat : NodePat) :
    List String :=
  (nodes.map Prod.snd).filterMap (fun n =>
    let typeOk := match pat.type with
      | some t => n.type = t
      | none => true
    let whereOk := pat.whereAttrs.all (fun kv =>
      match aLookup n.attrs kv.1 with
      | some w => pyEq w kv.2
      | none => false)
    if typeOk && whereOk then some n.id else none)

/-- Source `_edge_candidates`: edges passing the type filter, the endpoint
consistency checks against already-bound variables, and the `where`
filters. -/
def edgeCandidates (edges : List (String × Edge)) (pat : EdgePat)
    (env : Env) : List String :=
  (edges.map Prod.snd).filterMap (fun e =>
    let typeOk := match pat.type with
      | some t => e.type = t
      | none => true
    let fromOk := match pat.fromVar with
      | some fv => match aLookup env fv with
        | some bound => e.fromId = bound
        | none => true
      | none => true
    let toOk := match pat.toVar with
      | some tv => match aLookup env tv with
        | some bound => e.toId = bound
        | none => true
      | none => true
    let whereOk := pat.whereAttrs.all (fun kv =>
      match aLookup e.attrs kv.1 with
      | some w => pyEq w kv.2
      | none => false)
    if typeOk && fromOk && toOk && whereOk then some e.id else none)

/-- Source `backtrack_edges` of sketch-gpt5-0, translated statement by statement.
The Python loop mutates one `current_env` dict: endpoint bindings made when
a variable was unbound are not undone on backtracking (only the edge
variable itself is popped), and the same dict object is passed down the
recursion, so all those bindings persist across candidate iterations at
every level.  The state threading below reproduces exactly that: the
function returns both the yielded environments and the final mutated
environment. -/
def backEdges (edges : List (String × Edge)) :
    List EdgePat → Nat → Env → List Env × Env
  | [], _, env => ([env], env)
  | pat :: rest, j, env =>
    let deeper := backEdges edges rest (j + 1)
    let var := pat.var.getD ("e" ++ toString j)
    let step := fun (acc : List Env × Env) (eid : String) =>
      let res := acc.1
      let env := acc.2
      if (aVals env).contains eid then (res, env)
      else
        match aLookup edges eid with
        | none => (res, env)
        | some e =>
          let env1 :=
            match pat.fromVar with
            | some fv => if (aLookup env fv).isNone then aUpsert env fv e.fromId else env
            | none => env
          let env2 :=
            match pat.toVar with
            | some tv => if (aLookup env1 tv).isNone then aUpsert env1 tv e.toId else env1
            | none => env1
          let r := deeper (aUpsert env2 var eid)
          (res ++ r.1, aRemove r.2 var)
    (edgeCandidates edges pat env).foldl step ([], env)

/-- Source `backtrack_nodes` of sketch-gpt5-0: bind each node pattern's variable
to a candidate not already bound to another variable; at the end hand a
copy of the environment to the edge phase (so edge-phase mutations never
leak back, matching `dict(vars_env)` in the source). -/
def backNodes (nodes : List (String × Node)) (edges : List (String × Edge))
    (edgePats : List EdgePat) : List NodePat → Env → List Env
  | [], env => (backEdges edges edgePats 0 env).1
  | pat :: rest, env =>
    let deeper := backNodes nodes edges edgePats rest
    (nodeCandidates nodes pat).foldl (fun acc nid =>
      if (aVals env).contains nid then acc
      else acc ++ deeper (aUpsert env pat.var nid)) []

/-- Source `_match_rule`: all consistent binding environments, in enumeration
order. -/
def matchRule (nodes : List (String × Node)) (edges : List (String × Edge))
    (rule : Rule) : List Env :=
  backNodes nodes edges rule.edgePatterns rule.nodePatterns []

/-- Hex escapes 7b/7d are the brace characters of a template placeholder. -/
def placeholder (k : String) : String :=
  "\x7b" ++ k ++ "\x7d"

/-- Source `_format`: replace each bound variable's placeholder in the template
by the bound id, in environment order. -/
def fmtStr (template : String) (env : Env) : String :=
  env.foldl (fun t kv => strReplace t (placeholder kv.1) kv.2) template

/-- Template substitution on an expression: the repository's rule templates
carry placeholders only inside the path strings of `val(...)` calls, so
formatting the expression string is formatting those paths. -/
def fmtExpr (env : Env) : Expr → Expr
  | .lit q => .lit q
  | .val p => .val (fmtStr p env)
  | .name s => .name (fmtStr s env)
  | .add a b => .add (fmtExpr env a) (fmtExpr env b)
  | .sub a b => .sub (fmtExpr env a) (fmtExpr env b)
  | .mul a b => .mul (fmtExpr env a) (fmtExpr env b)
  | .div a b => .div (fmtExpr env a) (fmtExpr env b)
  | .itv a b => .itv (fmtExpr env a) (fmtExpr env b)

/-- The deterministic constraint id `run_rules` derives from a rule name
and an instantiated target. -/
def cidOf (ruleName target : String) : String :=
  "r:" ++ ruleName ++ ":" ++ target

/-- The Python guard `limit is not None and applied >= limit`. -/
def limitHit (limit : Option Nat) (applied : Nat) : Bool :=
  match limit with
  | none => false
  | some l => l ≤ applied

/-- The inner action loop of `run_rules`: instantiate each action's
templates for the bound environment and upsert under the deterministic id,
counting each application. -/
def applyActions (ruleName : String) (env : Env) :
    List RuleAction → WB → Nat → WB × Nat
  | [], wb, a => (wb, a)
  | act :: rest, wb, a =>
    let target := fmtStr act.target env
    let expr := fmtExpr env act.expr
    let cid := cidOf ruleName target
    let note := some (act.note.getD ruleName)
    let wb1 := (upsertConstraint wb cid target expr act.strength note).1
    applyActions ruleName env rest wb1 (a + 1)

/-- The per-rule environment loop of `run_rules`, with the `limit` break
checked before each environment. -/
def applyEnvs (rule : Rule) (limit : Option Nat) :
    List Env → WB → Nat → WB × Nat
  | [], wb, a => (wb, a)
  | env :: rest, wb, a =>
    if limitHit limit a then (wb, a)
    else
      let (wb1, a1) := applyActions rule.name env rule.actions wb a
      applyEnvs rule limit rest wb1 a1

/-- The outer rule loop of `run_rules`.  Matching reads only nodes and
edges, which the action loop never modifies, so matching each rule against
the current workbench equals matching against the initial one. -/
def runRulesRules (limit : Option Nat) :
    List Rule → WB → Nat → WB × Nat
  | [], wb, a => (wb, a)
  | r :: rs, wb, a =>
    let (wb1, a1) := applyEnvs r limit (matchRule wb.nodes wb.edges r) wb a
    runRulesRules limit rs wb1 a1

/-- Source `run_rules`: apply every rule, then log the run itself. -/
def runRules (wb : WB) (limit : Option Nat) : WB × Nat :=
  let (wb1, applied) := runRulesRules limit (aVals wb.rules) wb 0
  (bump wb1 "run_rules", applied)

/-! ## Propagation and simulation -/

/-- The convergence-metric contribution of one accepted update. -/
def deltaOf : Val → Val → ℚ
  | .interval a b, .interval c d =>
    |((c + d) / 2 - (a + b) / 2)| + |((d - c) - (b - a))|
  | .num a, .num b => |(b - a)|
  | _, _ => 1

/-- One constraint step of `propagate_once`: evaluate, skip on `None`,
skip when the target entity vanished, blend, and write plus accumulate
only when the value changed under Python `!=`.  The `blend` fallback case
is unreachable: `safeEval` never yields `Unknown` (see `blend_not_unknown`
below). -/
def propStep (st : WB × Nat × ℚ) (c : String × Constraint) : WB × Nat × ℚ :=
  let wb := st.1
  match safeEval wb c.2.expr with
  | none => st
  | some tv =>
    match resolveContainer wb c.2.target with
    | .error _ => st
    | .ok loc =>
      let current := (aLookup (locAttrs wb loc) loc.key).getD (.unknown none)
      match blend current tv c.2.strength with
      | none => st
      | some nv =>
        if pyEq current nv then st
        else (writeLoc wb loc nv, st.2.1 + 1, st.2.2 + deltaOf current nv)

/-- The constraint loop of `propagate_once` (the constraint dict itself is
never modified during the loop, only entity attributes are). -/
def propFold (st : WB × Nat × ℚ) (cs : List (String × Constraint)) :
    WB × Nat × ℚ :=
  cs.foldl propStep st

/-- Source `propagate_once`: run every constraint once, log, and report
`(updateCount, delta)`. -/
def propagateOnce (wb : WB) : WB × Nat × ℚ :=
  let r := propFold (wb, 0, 0) wb.constraints
  (bump r.1 "propagate_once", r.2.1, r.2.2)

/-- The `while` loop of `simulate` (both sketches agree once the unused
`dt`/`max_steps=None` parameters are dropped): run a tick, stop when the
truthy `until_delta` is reached, or when the tick had zero updates and the
previous delta was zero or there was no previous tick; otherwise remember
the delta and continue while the budget lasts. -/
def simGo (untilDelta : ℚ) :
    Nat → WB → Nat → Nat → Option ℚ → WB × Nat × Nat
  | 0, wb, steps, total, _ => (wb, steps, total)
  | t + 1, wb, steps, total, lastDelta =>
    let r := propagateOnce wb
    let wb1 := r.1
    let c := r.2.1
    let d := r.2.2
    if untilDelta ≠ 0 ∧ d ≤ untilDelta then (wb1, steps + 1, total + c)
    else if c = 0 ∧ (lastDelta = some 0 ∨ lastDelta = none) then
      (wb1, steps + 1, total + c)
    else simGo untilDelta t wb1 (steps + 1) (total + c) (some d)

/-- Source `simulate(ticks, until_delta)`: the loop above, then a log entry.
Returns the workbench, `steps`, and `total_updates`. -/
def simulateOp (wb : WB) (ticks : Nat) (untilDelta : ℚ) : WB × Nat × Nat :=
  let r := simGo untilDelta ticks wb 0 0 none
  (bump r.1 "simulate", r.2.1, r.2.2)

/-! ## Queries, explain, diff -/

/-- The dict returned by `query_attr` (its `version` field is read before
the `_bump` in sketch-gpt5-0). -/
def queryAttrOp (wb : WB) (path : String) : WB × RVal :=
  let v := wb.val path
  (bump wb "query_attr", .queryRes path v wb.version)

/-- One `explain` contributor: constraint data plus the recomputed current
and expression values. -/
structure Contributor : Type where
  id : String
  expr : Expr
  strength : ℚ
  note : Option String
  current : Option Val
  exprValue : Option Val
deriving DecidableEq

/-- Source `explain`: every constraint targeting the path, annotated; then log. -/
def explainOp (wb : WB) (path : String) : WB × List Contributor :=
  let contributors := (aVals wb.constraints).filterMap (fun c =>
    if c.target = path then
      some ⟨c.id, c.expr, c.strength, c.note, wb.val path, safeEval wb c.expr⟩
    else none)
  (bump wb "explain", contributors)

/-- Source `diff(since_version)`: all provenance entries with a larger version,
in append order; the query itself is then logged. -/
def diffOp (wb : WB) (since : Nat) : WB × List ProvEntry :=
  let ds := wb.provenance.filter (fun pe => since < pe.version)
  (bump wb "diff", ds)

/-! ## JSONL command runner and fork/compare -/

/-- A parsed command line whose `op` names a Workbench operation. -/
inductive Cmd : Type
  | createNodeC (type id : String) (attrs : List (String × Val))
  | createEdgeC (type fromId toId : String) (id : Option String)
    (attrs : List (String × Val))
  | setAttrC (target : String) (value : Val) (confidence : Option ℚ)
  | upsertConstraintC (id target : String) (expr : Expr) (strength : ℚ)
    (note : Option String)
  | queryAttrC (path : String)
  | simulateC (ticks : Nat) (untilDelta : ℚ)
deriving DecidableEq

/-- The op name of a command (the `op` field of the JSON line). -/
def cmdOp : Cmd → String
  | .createNodeC .. => "create_node"
  | .createEdgeC .. => "create_edge"
  | .setAttrC .. => "set_attr"
  | .upsertConstraintC .. => "upsert_constraint"
  | .queryAttrC .. => "query_attr"
  | .simulateC .. => "simulate"

/-- A parsed, non-blank JSONL line: either a command whose op passes
`hasattr`, or a line whose op names no Workbench attribute. -/
inductive Line : Type
  | cmd (c : Cmd)
  | unknownOp (op : String)
deriving DecidableEq

/-- Invoke one command (`getattr(self, op)(**args)`); `.error` carries the
exception message `str(e)`. -/
def execCmd (wb : WB) : Cmd → Except String (WB × RVal)
  | .createNodeC t i a => createNode wb t i a
  | .createEdgeC t f g i a => createEdge wb t f g i a
  | .setAttrC p v c => setAttr wb p v c
  | .upsertConstraintC i t e s n => .ok (upsertConstraint wb i t e s n)
  | .queryAttrC p => .ok (queryAttrOp wb p)
  | .simulateC t u =>
    let r := simulateOp wb t u
    .ok (r.1, .simRes r.2.1 r.2.2)

/-- One output record of a command batch.  Constructors encode the dict
shapes the two runners append: `okRec` is the dict with ok True, op and
result; `failRec` is the dict with ok False, op and error message;
`unknownRec3` is sketch-gpt5-3's unknown-op dict with ok False and the
fixed error string "unknown op"; `unknownRec0` is sketch-gpt5-0's
unknown-op dict, which has an error message and the echoed cmd but NO ok
field at all. -/
inductive BatchOut : Type
  | okRec (op : String) (result : RVal)
  | failRec (op msg : String)
  | unknownRec3
  | unknownRec0 (msg : String)
deriving DecidableEq

/-- Whether the dict a record models carries an `ok` field. -/
def hasOkField : BatchOut → Bool
  | .unknownRec0 _ => false
  | _ => true

/-- The runner of sketch-gpt5-3 (lines 310 to 320): per line, an unknown op
appends its record and continues; an invocation exception appends its
record and continues; success threads the updated workbench. -/
def runCommands3 (wb : WB) : List Line → WB × List BatchOut
  | [] => (wb, [])
  | .unknownOp _ :: rest =>
    let r := runCommands3 wb rest
    (r.1, .unknownRec3 :: r.2)
  | .cmd c :: rest =>
    match execCmd wb c with
    | .ok (wb1, res) =>
      let r := runCommands3 wb1 rest
      (r.1, .okRec (cmdOp c) res :: r.2)
    | .error msg =>
      let r := runCommands3 wb rest
      (r.1, .failRec (cmdOp c) msg :: r.2)

/-- The runner of sketch-gpt5-0 (lines 486 to 503): identical control flow,
but the unknown-op record is `"error": "Unknown op: <op>", "cmd": ...`
with no ok field. -/
def runCommands0 (wb : WB) : List Line → WB × List BatchOut
  | [] => (wb, [])
  | .unknownOp op :: rest =>
    let r := runCommands0 wb rest
    (r.1, .unknownRec0 ("Unknown op: " ++ op) :: r.2)
  | .cmd c :: rest =>
    match execCmd wb c with
    | .ok (wb1, res) =>
      let r := runCommands0 wb1 rest
      (r.1, .okRec (cmdOp c) res :: r.2)
    | .error msg =>
      let r := runCommands0 wb rest
      (r.1, .failRec (cmdOp c) msg :: r.2)

/-- Source `fork` is `deepcopy(self)`: in this value semantics a fork is the same
workbench value, and any operation on it produces a new value without
touching the original. -/
def fork (wb : WB) : WB := wb

/-- One scenario of `compare_scenarios`: a name and a parsed command
batch. -/
structure Scenario : Type where
  name : String
  cmds : List Line
deriving DecidableEq

/-- One result row of `compare_scenarios`. -/
structure ScnRow : Type where
  scenario : String
  queryVals : List (String × Option Val)
  opsSinceBase : Nat
deriving DecidableEq

/-- Source `compare_scenarios` (sketch-gpt5-3 lines 326 to 339): remember the base
version, and per scenario fork the base, run the scenario's batch if any,
simulate if simulation parameters were given, read each query (every
`query_attr` call bumps the fork), and count `diff(base_version)` on the
fork.  Every statement acts on the fork `wb2`; the base is only read, so
it is returned unchanged. -/
def compareScenarios (wb : WB) (scenarios : List Scenario)
    (queries : List String) (simKw : Option (Nat × ℚ)) : WB × List ScnRow :=
  let baseVersion := wb.version
  (wb, scenarios.map (fun sc =>
    let wb2 := fork wb
    let wb2 := if sc.cmds.isEmpty then wb2 else (runCommands3 wb2 sc.cmds).1
    let wb2 :=
      match simKw with
      | some (t, u) => (simulateOp wb2 t u).1
      | none => wb2
    let qr := queries.foldl (fun (acc : WB × List (String × Option Val)) q =>
      let r := queryAttrOp acc.1 q
      let v := match r.2 with
        | .queryRes _ v _ => v
        | _ => none
      (r.1, acc.2 ++ [(q, v)])) (wb2, [])
    let ds := diffOp qr.1 baseVersion
    ⟨sc.name, qr.2, ds.2.length⟩))

/-! ## The minimal hybrid workbench of gpt5-synthesis-3.py (claim C8) -/

/-- Python exceptions that reach the caller of the hybrid `val`. -/
inductive PyErr : Type
  | keyError (k : String)
  | valueError (msg : String)
deriving DecidableEq

/-- A node of the synthesis-3 mini workbench (history/semantics elided:
`val` never touches them). -/
structure HNode3 : Type where
  id : String
  type : String
  attrs : List (String × Val)
deriving DecidableEq

/-- The synthesis-3 `HybridWB`: just a node store. -/
structure HybridWB3 : Type where
  nodes : List (String × HNode3)
deriving DecidableEq

/-- Source `HybridWB.val` of gpt5-synthesis-3 (lines 36 to 38): unpack the path
(raising `ValueError` on a dotless path), index `self.nodes[ent]` (raising
`KeyError` when the entity is absent), then `attrs.get(key)` which yields
`None` for a missing attribute.  Unlike `Workbench.val`, nothing here is
caught, and a stored `Unknown` is returned as is. -/
def HybridWB3.val (wb : HybridWB3) (path : String) :
    Except PyErr (Option Val) :=
  match splitPath path with
  | none => .error (.valueError "not enough values to unpack")
  | some (ent, key) =>
    match aLookup wb.nodes ent with
    | none => .error (.keyError ent)
    | some n => .ok (aLookup n.attrs key)

/-! ## The branch/collapse workbench of gpt5-synthesis-2.py (claim C9) -/

/-- Heterogeneous values the synthesis-2 workbench stores: numbers,
Interval objects, Unknown, or some other object (string). -/
inductive HV : Type
  | num (q : ℚ)
  | itv (lo hi : ℚ)
  | unknownV
  | strv (s : String)
deriving DecidableEq

/-- Source `Interval(a, b)` as an `HV`. -/
def mkItvH (a b : ℚ) : HV :=
  if a ≤ b then .itv a b else .itv b a

/-- Source `to_interval`: an Interval stays, a number becomes the degenerate
interval, anything else yields `None`. -/
def toItv : HV → Option (ℚ × ℚ)
  | .itv a b => some (a, b)
  | .num q => some (q, q)
  | _ => none

/-- Source `Interval.mid` on a bound pair. -/
def itvMid (p : ℚ × ℚ) : ℚ := (p.1 + p.2) / 2

/-- Source `Interval.width` on a bound pair. -/
def itvWidth (p : ℚ × ℚ) : ℚ := p.2 - p.1

/-- One branch candidate recorded by the metaphor fork (context tags and
timestamps elided: `collapse_branches` reads only name, value and
confidence). -/
structure Branch : Type where
  name : String
  value : HV
  metaphor : String
  confidence : ℚ
deriving DecidableEq

/-- What a node attribute slot can hold in synthesis-2: a plain value or
the nested `branches` dict (attribute name to candidate list). -/
inductive AV : Type
  | v (x : HV)
  | branches (m : List (String × List Branch))
deriving DecidableEq

/-- A history record of the synthesis-2 node. -/
structure HistEntry : Type where
  path : String
  fromV : Option AV
  toV : AV
  source : String
  meaning : Option String
deriving DecidableEq

/-- A synthesis-2 node. -/
structure HNode2 : Type where
  id : String
  type : String
  attrs : List (String × AV)
  semantics : List String
  history : List HistEntry
deriving DecidableEq

/-- The synthesis-2 `HybridWB`: nodes plus a version/provenance pair
(provenance keeps only op names here; nothing reads more). -/
structure HybridWB2 : Type where
  nodes : List (String × HNode2)
  version : Nat
  provenance : List String
deriving DecidableEq

/-- Synthesis-2 `set_attr`: index the node (KeyError when absent), record
old value, assign, append a history record, append the meaning to the
semantics when given, and `_bump`. -/
def HybridWB2.setAttr (wb : HybridWB2) (path : String) (value : AV)
    (source : String) (meaning : Option String) :
    Except PyErr (HybridWB2 × String × String) :=
  match splitPath path with
  | none => .error (.valueError "not enough values to unpack")
  | some (ent, key) =>
    match aLookup wb.nodes ent with
    | none => .error (.keyError ent)
    | some n =>
      let old := aLookup n.attrs key
      let n1 := { n with
        attrs := aUpsert n.attrs key value
        history := n.history ++ [⟨path, old, value, source, meaning⟩]
        semantics := n.semantics ++ (match meaning with
          | some m => [m]
          | none => []) }
      let wb1 := { wb with
        nodes := aUpsert wb.nodes ent n1
        version := wb.version + 1
        provenance := wb.provenance ++ ["set_attr"] }
      .ok (wb1, ent, key)

/-- Source `n.attrs.get("branches", dict()).get(key, [])`: the stored branch
lists (the `branches` attribute is only ever written as the nested dict,
so a plain value under that key cannot arise from the source's own
operations). -/
def branchesOf (n : HNode2) (key : String) : List Branch :=
  match aLookup n.attrs "branches" with
  | some (.branches m) => (aLookup m key).getD []
  | _ => []

/-- Python `max(branches, key=confidence)`: first candidate of maximal
confidence (a later candidate replaces only when strictly greater). -/
def maxConfBranch (b0 : Branch) (bs : List Branch) : Branch :=
  bs.foldl (fun best b => if best.confidence < b.confidence then b else best) b0

/-- The weighted sums of the `weighted_mean` arm: confidence-weighted
midpoint sum, width sum and total confidence over the candidates whose
value `to_interval` converts (numbers included as degenerate intervals;
only non-numeric values are dropped). -/
def weightedSums (bs : List Branch) : ℚ × ℚ × ℚ :=
  bs.foldl (fun acc b =>
    match toItv b.value with
    | none => acc
    | some iv =>
      (acc.1 + itvMid iv * b.confidence,
       acc.2.1 + itvWidth iv * b.confidence,
       acc.2.2 + b.confidence)) (0, 0, 0)

/-- The candidate the `weighted_mean` arm picks: the first branch when the
total confidence of convertible candidates is zero, else the synthetic
`weighted` candidate holding the reconstructed Interval. -/
def weightedChosen (b0 : Branch) (bs : List Branch) : Branch :=
  let s := weightedSums (b0 :: bs)
  if s.2.2 = 0 then b0
  else
    let mid := s.1 / s.2.2
    let width := s.2.1 / s.2.2
    ⟨"weighted", mkItvH (mid - width / 2) (mid + width / 2),
     "Weighted collapse of branches", 1⟩

/-- Source `collapse_branches(wb, target_path, method)` of gpt5-synthesis-2
(lines 152 to 177): fetch the candidate list (empty means return `None`
without writing), choose per policy, then commit the chosen value through
a normal `set_attr` tagged `collapse:<method>`. -/
def collapseBranches (wb : HybridWB2) (path : String) (method : String) :
    Except PyErr (HybridWB2 × Option Branch) :=
  match splitPath path with
  | none => .error (.valueError "not enough values to unpack")
  | some (ent, key) =>
    match aLookup wb.nodes ent with
    | none => .error (.keyError ent)
    | some n =>
      match branchesOf n key with
      | [] => .ok (wb, none)
      | b0 :: bs =>
        let chosen :=
          if method = "max_conf" then maxConfBranch b0 bs
          else if method = "weighted_mean" then weightedChosen b0 bs
          else b0
        match HybridWB2.setAttr wb path (.v chosen.value)
            ("collapse:" ++ method)
            (some ("Collapsed from branches via " ++ method)) with
        | .error e => .error e
        | .ok (wb1, _, _) => .ok (wb1, some chosen)

/-! ## Models written from the spec's words, for refinement comparison -/

/-- Modelled from the spec: the claimed `simulate` stopping rule — run
ticks until the budget is exhausted, or a tick's delta is at most the
threshold (checked unconditionally), or two consecutive ticks both report
zero updates, whichever first.  `lastCount` is the previous tick's update
count, which the claim's fixpoint condition compares with zero. -/
def simClaimGo (untilDelta : ℚ) :
    Nat → WB → Nat → Nat → Option Nat → WB × Nat × Nat
  | 0, wb, steps, total, _ => (wb, steps, total)
  | t + 1, wb, steps, total, lastCount =>
    let r := propagateOnce wb
    if r.2.2 ≤ untilDelta then (r.1, steps + 1, total + r.2.1)
    else if r.2.1 = 0 ∧ lastCount = some 0 then (r.1, steps + 1, total + r.2.1)
    else simClaimGo untilDelta t r.1 (steps + 1) (total + r.2.1) (some r.2.1)

/-- Modelled from the spec: `simulate` as claim C7 states it. -/
def simulateClaimed (wb : WB) (ticks : Nat) (untilDelta : ℚ) :
    WB × Nat × Nat :=
  let r := simClaimGo untilDelta ticks wb 0 0 none
  (bump r.1 "simulate", r.2.1, r.2.2)

/-- The amended stopping rule, phrased like the spec (in terms of the
previous tick's update count): the threshold stop applies only when the
threshold is nonzero (Python truthiness), and the zero-update stop also
fires on the very first tick.  `simulate_matches_amended_spec` below
proves this model equal to the code's loop. -/
def simAmendGo (untilDelta : ℚ) :
    Nat → WB → Nat → Nat → Option Nat → WB × Nat × Nat
  | 0, wb, steps, total, _ => (wb, steps, total)
  | t + 1, wb, steps, total, lastCount =>
    let r := propagateOnce wb
    if untilDelta ≠ 0 ∧ r.2.2 ≤ untilDelta then (r.1, steps + 1, total + r.2.1)
    else if r.2.1 = 0 ∧ (lastCount = some 0 ∨ lastCount = none) then
      (r.1, steps + 1, total + r.2.1)
    else simAmendGo untilDelta t r.1 (steps + 1) (total + r.2.1) (some r.2.1)

/-- Source `simulate` under the amended stopping rule. -/
def simulateAmended (wb : WB) (ticks : Nat) (untilDelta : ℚ) :
    WB × Nat × Nat :=
  let r := simAmendGo untilDelta ticks wb 0 0 none
  (bump r.1 "simulate", r.2.1, r.2.2)

/-- Modelled from the spec: the `weightedMean` collapse value as claim C9
states it — confidence-weighted mean of midpoints and widths over
candidates whose values are Interval objects ONLY, numbers excluded. -/
def weightedSumsSpec (bs : List Branch) : ℚ × ℚ × ℚ :=
  bs.foldl (fun acc b =>
    match b.value with
    | .itv lo hi =>
      (acc.1 + itvMid (lo, hi) * b.confidence,
       acc.2.1 + itvWidth (lo, hi) * b.confidence,
       acc.2.2 + b.confidence)
    | _ => acc) (0, 0, 0)

/-- Modelled from the spec: the Interval the claim says `weightedMean`
commits (when some Interval-valued candidate carries confidence). -/
def weightedValueSpec (bs : List Branch) : Option HV :=
  let s := weightedSumsSpec bs
  if s.2.2 = 0 then none
  else
    let mid := s.1 / s.2.2
    let width := s.2.1 / s.2.2
    some (mkItvH (mid - width / 2) (mid + width / 2))

/-! ## Claim C2: blend boundary identities -/

/-- Claim C2 counterexample: with a Scalar old value 3 and an Interval
target, strength 0 does NOT return the old value — the Scalar is promoted,
so the result is the degenerate Interval(3, 3), and Python `==` between an
Interval dataclass and a float is False.  This refutes the claim that
`blend(old, target, 0) == old` for every Scalar/Interval old and target. -/
theorem c2_blend_strength_zero_counterexample :
    blend (Val.num 3) (Val.interval 1 2) 0 = some (Val.interval 3 3) ∧
    blend (Val.num 3) (Val.interval 1 2) 0 ≠ some (Val.num 3) ∧
    pyEq (Val.interval 3 3) (Val.num 3) = false := by
  refine ⟨?_, ?_, rfl⟩ <;> norm_num [blend, mkInterval] <;> intro h <;> cases h

/-- Claim C2 (amended): `blend(Unknown, target, s) == target` for every
target and strength; at strength 0 the result equals the old value except
when a Scalar old meets an Interval target, where it is the degenerate
interval of the old value; at strength 1 the result equals the target
except when an Interval old meets a Scalar target, where it is the
degenerate interval of the target. -/
theorem c2_blend_boundary_amended :
    (∀ h t s, blend (Val.unknown h) t s = some t) ∧
    (∀ a b : ℚ, blend (Val.num a) (Val.num b) 0 = some (Val.num a) ∧
      blend (Val.num a) (Val.num b) 1 = some (Val.num b)) ∧
    (∀ lo hi b : ℚ, lo ≤ hi →
      blend (Val.interval lo hi) (Val.num b) 0 = some (Val.interval lo hi)) ∧
    (∀ lo hi tl th : ℚ, lo ≤ hi →
      blend (Val.interval lo hi) (Val.interval tl th) 0 =
        some (Val.interval lo hi)) ∧
    (∀ a tl th : ℚ, tl ≤ th →
      blend (Val.num a) (Val.interval tl th) 1 = some (Val.interval tl th)) ∧
    (∀ ol oh tl th : ℚ, tl ≤ th →
      blend (Val.interval ol oh) (Val.interval tl th) 1 =
        some (Val.interval tl th)) ∧
    (∀ a tl th : ℚ,
      blend (Val.num a) (Val.interval tl th) 0 = some (Val.interval a a)) ∧
    (∀ ol oh b : ℚ,
      blend (Val.interval ol oh) (Val.num b) 1 = some (Val.interval b b)) := by
  refine ⟨fun h t s => rfl, fun a b => ⟨?_, ?_⟩, fun lo hi b h => ?_,
    fun lo hi tl th h => ?_, fun a tl th h => ?_, fun ol oh tl th h => ?_,
    fun a tl th => ?_, fun ol oh b => ?_⟩ <;>
    simp [blend, mkInterval] <;> norm_num [h]

/-- Witness for the amended blend theorem at concrete inputs. -/
theorem c2_blend_boundary_amended_witness :
    (1 : ℚ) ≤ 2 ∧
    blend (Val.interval 1 2) (Val.num 5) 0 = some (Val.interval 1 2) := by
  exact ⟨by norm_num, c2_blend_boundary_amended.2.2.1 1 2 5 (by norm_num)⟩

/-! ## Claim C8: lenient reads -/

/-- Claim C8 counterexample: `HybridWB.val` of gpt5-synthesis-3 raises
`KeyError` when the path's entity is absent — a read that errors instead
of resolving to Unknown/absent. -/
theorem c8_read_raises_counterexample :
    HybridWB3.val ⟨[]⟩ "x.y" = .error (.keyError "x") := by
  rfl

/-- Claim C8 (amended): `Workbench.val` never raises — a dotless path, an
absent entity, an absent attribute, or a stored Unknown all read as None —
and writes through `set_val` fail exactly when the path does not resolve;
but `HybridWB.val` of gpt5-synthesis-3 is lenient only for a missing
attribute (returning None) and raises `KeyError` for a missing entity. -/
theorem c8_read_leniency_amended :
    (∀ wb path, splitPath path = none → WB.val wb path = none) ∧
    (∀ wb path ent key, splitPath path = some (ent, key) →
      aLookup wb.nodes ent = none → aLookup wb.edges ent = none →
      WB.val wb path = none) ∧
    (∀ wb path loc, resolveContainer wb path = .ok loc →
      aLookup (locAttrs wb loc) loc.key = none → WB.val wb path = none) ∧
    (∀ wb path loc h, resolveContainer wb path = .ok loc →
      aLookup (locAttrs wb loc) loc.key = some (Val.unknown h) →
      WB.val wb path = none) ∧
    (∀ wb path v msg, resolveContainer wb path = .error msg →
      setVal wb path v = .error msg) ∧
    (∀ wb path v loc, resolveContainer wb path = .ok loc →
      setVal wb path v = .ok (writeLoc wb loc v, loc.ent, loc.key)) ∧
    (∀ (wb : HybridWB3) path ent key n, splitPath path = some (ent, key) →
      aLookup wb.nodes ent = some n → aLookup n.attrs key = none →
      HybridWB3.val wb path = .ok none) ∧
    (∀ (wb : HybridWB3) path ent key, splitPath path = some (ent, key) →
      aLookup wb.nodes ent = none →
      HybridWB3.val wb path = .error (.keyError ent)) := by
  refine ⟨?_, ?_, ?_, ?_, ?_, ?_, ?_, ?_⟩
  · intro wb path h
    simp [WB.val, resolveContainer, h]
  · intro wb path ent key h hn he
    simp [WB.val, resolveContainer, h, hn, he]
  · intro wb path loc h ha
    simp [WB.val, h, ha]
  · intro wb path loc h hr ha
    simp [WB.val, hr, ha]
  · intro wb path v msg h
    simp [setVal, h]
  · intro wb path v loc h
    simp [setVal, h]
  · intro wb path ent key n h hn ha
    simp [HybridWB3.val, h, hn, ha]
  · intro wb path ent key h hn
    simp [HybridWB3.val, h, hn]

/-- Witness for the amended read-leniency theorem: on a one-node hybrid
workbench, reading a present entity's missing attribute yields None. -/
theorem c8_read_leniency_amended_witness :
    splitPath "n.z" = some ("n", "z") ∧
    aLookup [("n", (⟨"n", "T", []⟩ : HNode3))] "n" = some ⟨"n", "T", []⟩ ∧
    HybridWB3.val ⟨[("n", ⟨"n", "T", []⟩)]⟩ "n.z" = .ok none :=
  ⟨rfl, rfl, c8_read_leniency_amended.2.2.2.2.2.2.1 ⟨[("n", ⟨"n", "T", []⟩)]⟩
    "n.z" "n" "z" ⟨"n", "T", []⟩ rfl rfl rfl⟩

/-! ## Claim C10: the read-only queries also log and bump -/

/-- Claim C10: `query_attr`, `explain` and `diff` each append exactly one
provenance entry and increment the version counter by 1 on every call, so
the version counter does not count only mutating operations, and every
`diff` call itself grows the provenance log by one entry. -/
theorem c10_query_ops_bump :
    (∀ wb path, (queryAttrOp wb path).1.version = wb.version + 1 ∧
      (queryAttrOp wb path).1.provenance =
        wb.provenance ++ [⟨"query_attr", wb.version + 1⟩]) ∧
    (∀ wb path, (explainOp wb path).1.version = wb.version + 1 ∧
      (explainOp wb path).1.provenance =
        wb.provenance ++ [⟨"explain", wb.version + 1⟩]) ∧
    (∀ wb since, (diffOp wb since).1.version = wb.version + 1 ∧
      (diffOp wb since).1.provenance =
        wb.provenance ++ [⟨"diff", wb.version + 1⟩]) := by
  refine ⟨fun wb path => ⟨rfl, rfl⟩, fun wb path => ⟨rfl, rfl⟩,
    fun wb since => ⟨rfl, rfl⟩⟩

/-! ## Claim C4: fork independence -/

/-- Claim C4: `fork` is a full deep copy — in this embedding's value
semantics the fork is the same workbench value and no operation on one
value can alter another — and `compare_scenarios` threads every batch
run, simulation, query and diff through the per-scenario fork, never
writing through the base, which it returns unchanged with its version
and every attribute intact. -/
theorem c4_fork_independence :
    (∀ wb, fork wb = wb) ∧
    (∀ wb scenarios queries simKw,
      (compareScenarios wb scenarios queries simKw).1 = wb ∧
      (compareScenarios wb scenarios queries simKw).1.version = wb.version ∧
      (compareScenarios wb scenarios queries simKw).1.nodes = wb.nodes ∧
      (compareScenarios wb scenarios queries simKw).1.edges = wb.edges) := by
  exact ⟨fun wb => rfl,
    fun wb scenarios queries simKw => ⟨rfl, rfl, rfl, rfl⟩⟩

/-! ## Claim C1: command batch protocol -/

/-- Each processed line contributes exactly one output record
(sketch-gpt5-3 runner). -/
theorem runCommands3_length : ∀ (lines : List Line) (wb : WB),
    (runCommands3 wb lines).2.length = lines.length
  | [], _ => rfl
  | .unknownOp _ :: rest, wb => by
    simp [runCommands3, runCommands3_length rest]
  | .cmd c :: rest, wb => by
    cases h : execCmd wb c with
    | ok p => simp [runCommands3, h, runCommands3_length rest]
    | error msg => simp [runCommands3, h, runCommands3_length rest]

/-- A concrete one-node workbench for the batch examples. -/
def wbC1 : WB :=
  ⟨[("n1", ⟨"n1", "T", []⟩)], [], [], [], 1, [⟨"create_node", 1⟩]⟩

/-- A batch with one invalid op between two valid ops. -/
def batchC1 : List Line :=
  [.cmd (.setAttrC "n1.x" (.num 1) none),
   .unknownOp "frobnicate",
   .cmd (.queryAttrC "n1.x")]

/-- Claim C1 counterexample: in the sketch-gpt5-0 runner the unknown-op
record is the dict with error message `Unknown op: <op>` and the echoed
command — it has no ok field at all and its error string is not
`unknown op`, so the claimed record shape with ok False and error
`unknown op` is wrong for that cited implementation. -/
theorem c1_unknown_op_record_counterexample :
    (runCommands0 emptyWB [.unknownOp "frobnicate"]).2 =
      [.unknownRec0 "Unknown op: frobnicate"] ∧
    hasOkField (.unknownRec0 "Unknown op: frobnicate") = false ∧
    BatchOut.unknownRec0 "Unknown op: frobnicate" ≠ BatchOut.unknownRec3 := by
  refine ⟨rfl, rfl, ?_⟩
  intro h
  cases h

/-- Claim C1 (amended): lines are handled independently and in order and
one record is appended per line; in the sketch-gpt5-3 runner an unknown op
yields the ok-False record with error `unknown op`, a raising invocation
yields the ok-False record with the exception message, and every other
line yields the ok-True record with the result, the batch always
continuing; the sketch-gpt5-0 runner has the same control flow but its
unknown-op record is the dict `error: Unknown op: <op>` without an ok
field.  A batch with one invalid op between two valid ops yields exactly
the records ok-True, unknown-op, ok-True in original order. -/
theorem c1_batch_protocol_amended :
    (∀ wb lines, (runCommands3 wb lines).2.length = lines.length) ∧
    (∀ wb op rest, runCommands3 wb (Line.unknownOp op :: rest) =
      ((runCommands3 wb rest).1,
        BatchOut.unknownRec3 :: (runCommands3 wb rest).2)) ∧
    (∀ wb c rest wb1 res, execCmd wb c = .ok (wb1, res) →
      runCommands3 wb (Line.cmd c :: rest) =
      ((runCommands3 wb1 rest).1,
        BatchOut.okRec (cmdOp c) res :: (runCommands3 wb1 rest).2)) ∧
    (∀ wb c rest msg, execCmd wb c = .error msg →
      runCommands3 wb (Line.cmd c :: rest) =
      ((runCommands3 wb rest).1,
        BatchOut.failRec (cmdOp c) msg :: (runCommands3 wb rest).2)) ∧
    (∀ wb op rest, runCommands0 wb (Line.unknownOp op :: rest) =
      ((runCommands0 wb rest).1,
        BatchOut.unknownRec0 ("Unknown op: " ++ op) ::
          (runCommands0 wb rest).2)) ∧
    (runCommands3 wbC1 batchC1).2 =
      [.okRec "set_attr" (.setRes "n1" "x" (.num 1)),
       .unknownRec3,
       .okRec "query_attr" (.queryRes "n1.x" (some (.num 1)) 2)] := by
  refine ⟨fun wb lines => runCommands3_length lines wb,
    fun wb op rest => rfl, ?_, ?_, fun wb op rest => rfl, ?_⟩
  · intro wb c rest wb1 res h
    simp [runCommands3, h]
  · intro wb c rest msg h
    simp [runCommands3, h]
  · rfl

/-- Witness for the amended batch theorem: the ok-False record of a
raising invocation, at a concrete duplicate `create_node`. -/
theorem c1_batch_protocol_amended_witness :
    execCmd wbC1 (.createNodeC "T" "n1" []) =
      .error "Node id already exists: n1" ∧
    runCommands3 wbC1 [Line.cmd (.createNodeC "T" "n1" [])] =
      ((runCommands3 wbC1 []).1,
        BatchOut.failRec "create_node" "Node id already exists: n1" ::
          (runCommands3 wbC1 []).2) :=
  ⟨rfl, c1_batch_protocol_amended.2.2.2.1 wbC1 (.createNodeC "T" "n1" []) []
    "Node id already exists: n1" rfl⟩

/-! ## Claim C6: evaluation failures never escape, the tick skips -/

/-- A constraint whose evaluation yields no result leaves the tick state
(workbench, update count, delta) untouched. -/
theorem propStep_skip (st : WB × Nat × ℚ) (c : String × Constraint)
    (h : safeEval st.1 c.2.expr = none) : propStep st c = st := by
  simp [propStep, h]

/-- Claim C6: every evaluation failure is caught inside the evaluator and
surfaces as no result (None): an exception anywhere in the expression, in
particular an unknown name, a division by zero, and arithmetic on the None
a missing path yields; and `propagate_once` skips such a constraint — the
tick over a constraint list containing it equals the tick over the list
without it, with the same final state, update count and delta.  By
construction neither the evaluation nor the tick can propagate an
exception to its caller: `safeEval` and `propFold` are total functions. -/
theorem c6_eval_failure_skips :
    (∀ wb e, (∃ u, evalExpr wb e = .error u) → safeEval wb e = none) ∧
    (∀ wb s, evalExpr wb (Expr.name s) = .error ()) ∧
    (∀ wb a, evalExpr wb (Expr.div a (Expr.lit 0)) = .error ()) ∧
    (∀ wb p q, WB.val wb p = none →
      evalExpr wb (Expr.mul (Expr.val p) (Expr.lit q)) = .error ()) ∧
    (∀ st cs1 c cs2, safeEval (propFold st cs1).1 c.2.expr = none →
      propFold st (cs1 ++ c :: cs2) = propFold st (cs1 ++ cs2)) := by
  refine ⟨?_, fun wb s => rfl, ?_, ?_, ?_⟩
  · intro wb e ⟨u, h⟩
    simp [safeEval, h]
  · intro wb a
    cases h : evalExpr wb a with
    | error u => simp [evalExpr, h]
    | ok v => cases v <;> norm_num [evalExpr, h, pyDiv]
  · intro wb p q h
    simp [evalExpr, h, pyMul]
  · intro st cs1 c cs2 h
    have e1 : propFold st (cs1 ++ c :: cs2) =
        propFold (propStep (propFold st cs1) c) cs2 := by
      simp [propFold, List.foldl_append]
    have e2 : propFold st (cs1 ++ cs2) = propFold (propFold st cs1) cs2 := by
      simp [propFold, List.foldl_append]
    rw [e1, e2, propStep_skip _ _ h]

/-- Witness for the skip theorem: a concrete workbench where a constraint
referring to an unknown name is skipped by the tick. -/
theorem c6_eval_failure_skips_witness :
    safeEval (propFold ((⟨[("n1", ⟨"n1", "T", []⟩)], [], [], [], 0, []⟩ : WB),
        0, 0) []).1 (Expr.name "bogus") = none ∧
    propFold ((⟨[("n1", ⟨"n1", "T", []⟩)], [], [], [], 0, []⟩ : WB), 0, 0)
        ([] ++ ("c9", ⟨"c9", "n1.x", Expr.name "bogus", 1, none⟩) :: []) =
      propFold ((⟨[("n1", ⟨"n1", "T", []⟩)], [], [], [], 0, []⟩ : WB), 0, 0)
        ([] ++ []) :=
  ⟨rfl, c6_eval_failure_skips.2.2.2.2
    ((⟨[("n1", ⟨"n1", "T", []⟩)], [], [], [], 0, []⟩ : WB), 0, 0) []
    ("c9", ⟨"c9", "n1.x", Expr.name "bogus", 1, none⟩) [] rfl⟩

/-! ## Claim C3: version counting and diff -/

/-- Writing an attribute never touches version or provenance. -/
theorem writeLoc_version (wb : WB) (l : Loc) (v : Val) :
    (writeLoc wb l v).version = wb.version ∧
    (writeLoc wb l v).provenance = wb.provenance := by
  cases l with
  | nodeLoc e k =>
    simp only [writeLoc]
    split <;> exact ⟨rfl, rfl⟩
  | edgeLoc e k =>
    simp only [writeLoc]
    split <;> exact ⟨rfl, rfl⟩

/-- Source `set_val` never touches version or provenance. -/
theorem setVal_version (wb : WB) (p : String) (v : Val) (wb1 : WB)
    (e k : String) (h : setVal wb p v = .ok (wb1, e, k)) :
    wb1.version = wb.version ∧ wb1.provenance = wb.provenance := by
  unfold setVal at h
  split at h
  · cases h
  · simp only [Except.ok.injEq, Prod.mk.injEq] at h
    obtain ⟨h1, -⟩ := h
    subst h1
    exact writeLoc_version ..

/-- The confidence companion write never touches version or provenance. -/
theorem confWrite_version (wb1 : WB) (target : String) (c : Option ℚ) :
    (confWrite wb1 target c).version = wb1.version ∧
    (confWrite wb1 target c).provenance = wb1.provenance := by
  cases c with
  | none => exact ⟨rfl, rfl⟩
  | some q =>
    simp only [confWrite]
    split
    · exact writeLoc_version ..
    · exact writeLoc_version ..
    · exact ⟨rfl, rfl⟩

/-- Count of the elements of `1, ..., n` exceeding `v`. -/
theorem countP_range_gt (v : Nat) : ∀ n, v ≤ n →
    (List.range' 1 n).countP (fun m => decide (v < m)) = n - v := by
  intro n
  induction n with
  | zero =>
    intro h
    interval_cases v
    rfl
  | succ n ih =>
    intro h
    rw [List.range'_concat, List.countP_append]
    simp only [one_mul]
    by_cases hv : v ≤ n
    · rw [ih hv]
      have h1 : (List.countP (fun m => decide (v < m)) [1 + n]) = 1 := by
        have hlt : v < 1 + n := by omega
        simp [List.countP_singleton, hlt]
      rw [h1]
      omega
    · have hv' : v = n + 1 := by omega
      subst hv'
      have h0 : (List.range' 1 n).countP (fun m => decide (n + 1 < m)) = 0 := by
        rw [List.countP_eq_length_filter, List.length_eq_zero,
          List.filter_eq_nil_iff]
        intro m hm
        have := (List.mem_range'_1.mp hm).2
        simp
        omega
      have h1 : (List.countP (fun m => decide (n + 1 < m)) [1 + n]) = 0 := by
        have hlt : ¬ (n + 1 < 1 + n) := by omega
        simp [List.countP_singleton, hlt]
      rw [h0, h1]
      omega

/-- The provenance invariant every workbench reachable from `emptyWB`
satisfies: the logged versions are exactly `1, ..., version` in order. -/
def provInv (wb : WB) : Prop :=
  wb.provenance.map ProvEntry.version = List.range' 1 wb.version

/-- Source `applyActions` bumps the version once per applied action. -/
theorem applyActions_version (nm : String) (env : Env) :
    ∀ (acts : List RuleAction) (wb : WB) (a : Nat),
    (applyActions nm env acts wb a).1.version + a =
      wb.version + (applyActions nm env acts wb a).2
  | [], wb, a => rfl
  | act :: rest, wb, a => by
    have := applyActions_version nm env rest
      ((upsertConstraint wb (cidOf nm (fmtStr act.target env))
        (fmtStr act.target env) (fmtExpr env act.expr) act.strength
        (some (act.note.getD nm))).1) (a + 1)
    simp only [applyActions]
    simp only [upsertConstraint, bump] at this ⊢
    omega

/-- Source `applyEnvs` bumps the version once per applied action. -/
theorem applyEnvs_version (rule : Rule) :
    ∀ (envs : List Env) (wb : WB) (a : Nat),
    (applyEnvs rule none envs wb a).1.version + a =
      wb.version + (applyEnvs rule none envs wb a).2
  | [], wb, a => rfl
  | env :: rest, wb, a => by
    simp [applyEnvs, limitHit]
    have h1 := applyActions_version rule.name env rule.actions wb a
    have h2 := applyEnvs_version rule rest
      (applyActions rule.name env rule.actions wb a).1
      (applyActions rule.name env rule.actions wb a).2
    omega

/-- Source `runRulesRules` bumps the version once per applied action. -/
theorem runRulesRules_version :
    ∀ (rs : List Rule) (wb : WB) (a : Nat),
    (runRulesRules none rs wb a).1.version + a =
      wb.version + (runRulesRules none rs wb a).2
  | [], wb, a => rfl
  | r :: rest, wb, a => by
    simp only [runRulesRules]
    have h1 := applyEnvs_version r (matchRule wb.nodes wb.edges r) wb a
    have h2 := runRulesRules_version rest
      (applyEnvs r none (matchRule wb.nodes wb.edges r) wb a).1
      (applyEnvs r none (matchRule wb.nodes wb.edges r) wb a).2
    omega

/-- Claim C3 counterexample: `simulate` is a mutating call, but one
`simulate(ticks=1)` on the fresh workbench increases the version by 2
(one bump from the inner `propagate_once`, one from `simulate` itself),
not by exactly 1. -/
theorem c3_version_counterexample :
    (simulateOp emptyWB 1 0).1.version = emptyWB.version + 2 := by
  norm_num [simulateOp, simGo, propagateOnce, propFold, bump, emptyWB]

/-- Claim C3 (amended): each primitive mutating call — `create_node`,
`create_edge`, `set_attr`, `assert_constraint`, `upsert_constraint`,
`define_rule`, and `remove_constraint` of a present id — increases the
version by exactly 1, but composite calls log once per sub-operation plus
once for themselves: `run_rules` increases the version by the number of
applied actions plus 1.  `diff(v)` returns exactly the provenance entries
with version greater than `v`, in append order (a sublist of the log),
and when the log holds versions `1, ..., version` (true of every workbench
built by the operations) its length is `version - v` for `v ≤ version`. -/
theorem c3_version_monotonicity_amended :
    (∀ wb t i a wb' r, createNode wb t i a = .ok (wb', r) →
      wb'.version = wb.version + 1) ∧
    (∀ wb t f g i a wb' r, createEdge wb t f g i a = .ok (wb', r) →
      wb'.version = wb.version + 1) ∧
    (∀ wb p v c wb' r, setAttr wb p v c = .ok (wb', r) →
      wb'.version = wb.version + 1) ∧
    (∀ wb i t e s n wb' r, assertConstraint wb i t e s n = .ok (wb', r) →
      wb'.version = wb.version + 1) ∧
    (∀ wb i t e s n, (upsertConstraint wb i t e s n).1.version =
      wb.version + 1) ∧
    (∀ wb r, (defineRule wb r).1.version = wb.version + 1) ∧
    (∀ wb i, (aLookup wb.constraints i).isSome →
      (removeConstraint wb i).1.version = wb.version + 1) ∧
    (∀ wb, (runRules wb none).1.version =
      wb.version + (runRules wb none).2 + 1) ∧
    (∀ wb v, ∀ e ∈ (diffOp wb v).2, v < e.version) ∧
    (∀ wb v, (diffOp wb v).2.Sublist wb.provenance) ∧
    (∀ wb v, provInv wb → v ≤ wb.version →
      (diffOp wb v).2.length = wb.version - v) := by
  refine ⟨?_, ?_, ?_, ?_, ?_, ?_, ?_, ?_, ?_, ?_, ?_⟩
  · intro wb t i a wb' r h
    unfold createNode at h
    split at h
    · cases h
    · simp only [Except.ok.injEq, Prod.mk.injEq] at h
      obtain ⟨h1, -⟩ := h
      subst h1
      rfl
  · intro wb t f g i a wb' r h
    unfold createEdge at h
    split at h
    · cases h
    · dsimp only at h
      split at h
      · cases h
      · simp only [Except.ok.injEq, Prod.mk.injEq] at h
        obtain ⟨h1, -⟩ := h
        subst h1
        rfl
  · intro wb p v c wb' r h
    unfold setAttr at h
    split at h
    · cases h
    · rename_i wb1 ent key heq
      simp only [Except.ok.injEq, Prod.mk.injEq] at h
      obtain ⟨h1, -⟩ := h
      subst h1
      have hv := (setVal_version wb p v wb1 ent key heq).1
      have hc := (confWrite_version wb1 p c).1
      simp only [bump]
      omega
  · intro wb i t e s n wb' r h
    unfold assertConstraint at h
    split at h
    · cases h
    · simp only [Except.ok.injEq, Prod.mk.injEq] at h
      obtain ⟨h1, -⟩ := h
      subst h1
      rfl
  · intro wb i t e s n
    rfl
  · intro wb r
    rfl
  · intro wb i h
    simp [removeConstraint, h, bump]
  · intro wb
    have := runRulesRules_version (aVals wb.rules) wb 0
    simp only [runRules, bump]
    omega
  · intro wb v e he
    have := List.of_mem_filter he
    simpa using this
  · intro wb v
    exact List.filter_sublist _
  · intro wb v hinv hle
    simp only [diffOp]
    rw [← List.countP_eq_length_filter]
    have hm := List.countP_map (fun m => decide (v < m)) ProvEntry.version
      wb.provenance
    have : List.countP (fun pe => decide (v < pe.version)) wb.provenance =
        List.countP (fun m => decide (v < m))
          (wb.provenance.map ProvEntry.version) := by
      rw [hm]
      rfl
    rw [this, hinv, countP_range_gt v wb.version hle]

/-- Witness for the amended version theorem: the one-operation workbench
satisfies the provenance invariant and `diff(0)` has length `version`. -/
theorem c3_version_monotonicity_amended_witness :
    provInv wbC1 ∧ 0 ≤ wbC1.version ∧
    (diffOp wbC1 0).2.length = wbC1.version - 0 :=
  ⟨rfl, Nat.zero_le _,
    c3_version_monotonicity_amended.2.2.2.2.2.2.2.2.2.2 wbC1 0 rfl
      (Nat.zero_le _)⟩

/-! ## Claim C7: simulate stopping conditions -/

/-- An accepted update contributes strictly positive delta: two unequal
numbers differ in absolute value, two unequal intervals differ in midpoint
or width, and any change of kind costs the fixed unit. -/
theorem deltaOf_pos (a b : Val) (h : pyEq a b = false) : 0 < deltaOf a b := by
  cases a with
  | num x =>
    cases b with
    | num y =>
      simp [pyEq] at h
      simp [deltaOf]
      intro hxy
      exact h (by linarith)
    | interval c d => norm_num [deltaOf]
    | unknown hh => norm_num [deltaOf]
  | interval x y =>
    cases b with
    | num z => norm_num [deltaOf]
    | unknown hh => norm_num [deltaOf]
    | interval c d =>
      simp [pyEq] at h
      simp [deltaOf]
      rcases abs_nonneg ((c + d) / 2 - (x + y) / 2) |>.lt_or_eq with hm | hm
      · positivity
      · rcases abs_nonneg (d - c - (y - x)) |>.lt_or_eq with hw | hw
        · positivity
        · exfalso
          have hm0 : (c + d) / 2 - (x + y) / 2 = 0 := abs_eq_zero.mp hm.symm
          have hw0 : d - c - (y - x) = 0 := abs_eq_zero.mp hw.symm
          have hx : x = c := by linarith
          have hy : y = d := by linarith
          exact (h hx) hy
  | unknown hh => cases b <;> norm_num [deltaOf]

/-- One propagation step either leaves the counters alone or increments
the update count by one and the delta by a positive amount. -/
theorem propStep_counters (st : WB × Nat × ℚ) (c : String × Constraint) :
    ((propStep st c).2.1 = st.2.1 ∧ (propStep st c).2.2 = st.2.2) ∨
    (∃ d, 0 < d ∧ (propStep st c).2.1 = st.2.1 + 1 ∧
      (propStep st c).2.2 = st.2.2 + d) := by
  rcases hse : safeEval st.1 c.2.expr with _ | tv
  · exact Or.inl ⟨by simp [propStep, hse], by simp [propStep, hse]⟩
  · rcases hrc : resolveContainer st.1 c.2.target with msg | loc
    · exact Or.inl ⟨by simp [propStep, hse, hrc], by simp [propStep, hse, hrc]⟩
    · rcases hbl : blend ((aLookup (locAttrs st.1 loc) loc.key).getD
          (.unknown none)) tv c.2.strength with _ | nv
      · exact Or.inl ⟨by simp [propStep, hse, hrc, hbl],
          by simp [propStep, hse, hrc, hbl]⟩
      · by_cases hpe : pyEq ((aLookup (locAttrs st.1 loc) loc.key).getD
            (.unknown none)) nv = true
        · exact Or.inl ⟨by simp [propStep, hse, hrc, hbl, hpe],
            by simp [propStep, hse, hrc, hbl, hpe]⟩
        · refine Or.inr ⟨deltaOf ((aLookup (locAttrs st.1 loc) loc.key).getD
            (.unknown none)) nv,
            deltaOf_pos _ _ (Bool.not_eq_true _ ▸ hpe), ?_, ?_⟩ <;>
            simp [propStep, hse, hrc, hbl, hpe]

/-- Over any constraint list the counters grow monotonically, and the
update count stagnates exactly when the delta does. -/
theorem propFold_counters : ∀ (cs : List (String × Constraint))
    (st : WB × Nat × ℚ),
    st.2.1 ≤ (propFold st cs).2.1 ∧ st.2.2 ≤ (propFold st cs).2.2 ∧
    ((propFold st cs).2.1 = st.2.1 ↔ (propFold st cs).2.2 = st.2.2)
  | [], st => ⟨le_refl _, le_refl _, by simp [propFold]⟩
  | c :: rest, st => by
    have hrec := propFold_counters rest (propStep st c)
    have hstep := propStep_counters st c
    have hfold : propFold st (c :: rest) = propFold (propStep st c) rest := rfl
    rw [hfold]
    rcases hstep with ⟨h1, h2⟩ | ⟨d, hd, h1, h2⟩
    · rw [h1, h2] at hrec
      exact hrec
    · obtain ⟨m1, m2, hiff⟩ := hrec
      rw [h1] at m1
      rw [h2] at m2
      refine ⟨by omega, by linarith, ?_, ?_⟩
      · intro hc
        omega
      · intro hc
        rw [h1, h2] at hiff
        have : st.2.2 + d ≤ st.2.2 := hc ▸ m2
        linarith
  termination_by cs => cs.length

/-- A tick reports zero updates exactly when it reports zero delta. -/
theorem propagateOnce_zero_iff (wb : WB) :
    ((propagateOnce wb).2.1 = 0 ↔ (propagateOnce wb).2.2 = 0) := by
  have := propFold_counters wb.constraints (wb, 0, 0)
  simpa [propagateOnce] using this.2.2

/-- The simulate loop of the code equals the amended-spec loop: tracking
the previous tick's delta (code) or its update count (spec wording) makes
no difference because a tick's delta is zero exactly when its update count
is. -/
theorem simGo_eq_amendGo (u : ℚ) : ∀ (t : Nat) (wb : WB)
    (steps total : Nat) (ld : Option ℚ) (lc : Option Nat),
    ((ld = none ∧ lc = none) ∨
      (∃ d c, ld = some d ∧ lc = some c ∧ (d = 0 ↔ c = 0))) →
    simGo u t wb steps total ld = simAmendGo u t wb steps total lc
  | 0, wb, steps, total, ld, lc, _ => rfl
  | t + 1, wb, steps, total, ld, lc, hrel => by
    have hzero := propagateOnce_zero_iff wb
    have hcond : ((ld = some 0 ∨ ld = none) ↔ (lc = some 0 ∨ lc = none)) := by
      rcases hrel with ⟨h1, h2⟩ | ⟨d, c, h1, h2, hiff⟩
      · simp [h1, h2]
      · simp [h1, h2]
        constructor
        · intro hd
          exact hiff.mp hd
        · intro hc
          exact hiff.mpr hc
    by_cases h1 : u ≠ 0 ∧ (propagateOnce wb).2.2 ≤ u
    · simp only [simGo, simAmendGo, if_pos h1]
    · by_cases h2 : (propagateOnce wb).2.1 = 0 ∧ (ld = some 0 ∨ ld = none)
      · have h2' : (propagateOnce wb).2.1 = 0 ∧ (lc = some 0 ∨ lc = none) :=
          ⟨h2.1, hcond.mp h2.2⟩
        simp only [simGo, simAmendGo, if_neg h1, if_pos h2, if_pos h2']
      · have h2' : ¬((propagateOnce wb).2.1 = 0 ∧ (lc = some 0 ∨ lc = none)) := by
          intro hx
          exact h2 ⟨hx.1, hcond.mpr hx.2⟩
        simp only [simGo, simAmendGo, if_neg h1, if_neg h2, if_neg h2']
        exact simGo_eq_amendGo u t (propagateOnce wb).1 (steps + 1)
          (total + (propagateOnce wb).2.1) (some (propagateOnce wb).2.2)
          (some (propagateOnce wb).2.1)
          (Or.inr ⟨(propagateOnce wb).2.2, (propagateOnce wb).2.1, rfl, rfl,
            hzero.symm⟩)

/-- Claim C7 (amended): `simulate(maxTicks, deltaThreshold)` stops when the
tick budget is exhausted, or when the threshold is NONZERO and a tick's
delta is at most it (a zero threshold is falsy in Python and disables the
check), or when a tick reports zero updates and the previous tick also
reported zero updates OR there was no previous tick (the loop also stops
on an immediately converged first tick) — whichever first. -/
theorem c7_simulate_stopping_amended (wb : WB) (ticks : Nat) (u : ℚ) :
    simulateOp wb ticks u = simulateAmended wb ticks u := by
  unfold simulateOp simulateAmended
  rw [simGo_eq_amendGo u ticks wb 0 0 none none (Or.inl ⟨rfl, rfl⟩)]

/-- The counterexample workbench family: one node `a` with `x` at the
given value, one constraint pinning `a.x` to 2 at strength 1, and the
given version/provenance. -/
def wbC7at (x : ℚ) (v : Nat) (prov : List ProvEntry) : WB :=
  ⟨[("a", ⟨"a", "F", [("x", .num x)]⟩)], [],
   [("c1", ⟨"c1", "a.x", .lit 2, 1, none⟩)], [], v, prov⟩

/-- A one-node, one-constraint workbench: `a.x` starts at 1 and the
constraint pins it to 2 at strength 1. -/
def wbC7 : WB := wbC7at 1 0 []

/-- The first tick on `wbC7` updates `a.x` to 2: one update, delta 1. -/
theorem propC7_first (v : Nat) (prov : List ProvEntry) :
    propagateOnce (wbC7at 1 v prov) =
      (wbC7at 2 (v + 1) (prov ++ [⟨"propagate_once", v + 1⟩]), 1, 1) := by
  have hse : safeEval (wbC7at 1 v prov) (Expr.lit 2) = some (Val.num 2) := rfl
  have hrc : resolveContainer (wbC7at 1 v prov) "a.x" =
      .ok (.nodeLoc "a" "x") := rfl
  have hcur : (aLookup (locAttrs (wbC7at 1 v prov) (.nodeLoc "a" "x"))
      (Loc.key (.nodeLoc "a" "x"))).getD (Val.unknown none) = Val.num 1 := rfl
  have hbl : blend (Val.num 1) (Val.num 2) 1 = some (Val.num 2) := by
    norm_num [blend]
  have hpy : pyEq (Val.num 1) (Val.num 2) = false := by
    norm_num [pyEq]
  have hdl : deltaOf (Val.num 1) (Val.num 2) = 1 := by
    norm_num [deltaOf]
  have hwr : writeLoc (wbC7at 1 v prov) (.nodeLoc "a" "x") (Val.num 2) =
      wbC7at 2 v prov := rfl
  have hcs : (wbC7at 1 v prov).constraints =
      [("c1", ⟨"c1", "a.x", Expr.lit 2, 1, none⟩)] := rfl
  have hbmp : bump (wbC7at 2 v prov) "propagate_once" =
      wbC7at 2 (v + 1) (prov ++ [⟨"propagate_once", v + 1⟩]) := rfl
  simp only [propagateOnce, hcs, propFold, List.foldl_cons, List.foldl_nil,
    propStep, hse, hrc, hcur, hbl, hpy, hdl, hwr, hbmp,
    Bool.false_eq_true, if_false]
  norm_num

/-- Every later tick on the converged workbench is a zero-update tick. -/
theorem propC7_fixed (v : Nat) (prov : List ProvEntry) :
    propagateOnce (wbC7at 2 v prov) =
      (wbC7at 2 (v + 1) (prov ++ [⟨"propagate_once", v + 1⟩]), 0, 0) := by
  have hse : safeEval (wbC7at 2 v prov) (Expr.lit 2) = some (Val.num 2) := rfl
  have hrc : resolveContainer (wbC7at 2 v prov) "a.x" =
      .ok (.nodeLoc "a" "x") := rfl
  have hcur : (aLookup (locAttrs (wbC7at 2 v prov) (.nodeLoc "a" "x"))
      (Loc.key (.nodeLoc "a" "x"))).getD (Val.unknown none) = Val.num 2 := rfl
  have hbl : blend (Val.num 2) (Val.num 2) 1 = some (Val.num 2) := by
    norm_num [blend]
  have hpy : pyEq (Val.num 2) (Val.num 2) = true := by
    norm_num [pyEq]
  have hcs : (wbC7at 2 v prov).constraints =
      [("c1", ⟨"c1", "a.x", Expr.lit 2, 1, none⟩)] := rfl
  have hbmp : bump (wbC7at 2 v prov) "propagate_once" =
      wbC7at 2 (v + 1) (prov ++ [⟨"propagate_once", v + 1⟩]) := rfl
  simp only [propagateOnce, hcs, propFold, List.foldl_cons, List.foldl_nil,
    propStep, hse, hrc, hcur, hbl, hpy, if_true, hbmp]

/-- The continuing step of the simulate loop. -/
theorem simGo_continue (u : ℚ) (t : Nat) (wb : WB) (steps total : Nat)
    (ld : Option ℚ) (h1 : ¬(u ≠ 0 ∧ (propagateOnce wb).2.2 ≤ u))
    (h2 : ¬((propagateOnce wb).2.1 = 0 ∧ (ld = some 0 ∨ ld = none))) :
    simGo u (t + 1) wb steps total ld =
      simGo u t (propagateOnce wb).1 (steps + 1)
        (total + (propagateOnce wb).2.1) (some (propagateOnce wb).2.2) := by
  simp only [simGo, if_neg h1, if_neg h2]

/-- The zero-update stop of the simulate loop. -/
theorem simGo_stop_fix (u : ℚ) (t : Nat) (wb : WB) (steps total : Nat)
    (ld : Option ℚ) (h1 : ¬(u ≠ 0 ∧ (propagateOnce wb).2.2 ≤ u))
    (h2 : (propagateOnce wb).2.1 = 0 ∧ (ld = some 0 ∨ ld = none)) :
    simGo u (t + 1) wb steps total ld =
      ((propagateOnce wb).1, steps + 1, total + (propagateOnce wb).2.1) := by
  simp only [simGo, if_neg h1, if_pos h2]

/-- The threshold stop of the claimed simulate loop. -/
theorem simClaimGo_stop_delta (u : ℚ) (t : Nat) (wb : WB)
    (steps total : Nat) (lc : Option Nat)
    (h1 : (propagateOnce wb).2.2 ≤ u) :
    simClaimGo u (t + 1) wb steps total lc =
      ((propagateOnce wb).1, steps + 1, total + (propagateOnce wb).2.1) := by
  simp only [simClaimGo, if_pos h1]

/-- The continuing step of the claimed simulate loop. -/
theorem simClaimGo_continue (u : ℚ) (t : Nat) (wb : WB)
    (steps total : Nat) (lc : Option Nat)
    (h1 : ¬((propagateOnce wb).2.2 ≤ u))
    (h2 : ¬((propagateOnce wb).2.1 = 0 ∧ lc = some 0)) :
    simClaimGo u (t + 1) wb steps total lc =
      simClaimGo u t (propagateOnce wb).1 (steps + 1)
        (total + (propagateOnce wb).2.1) (some (propagateOnce wb).2.1) := by
  simp only [simClaimGo, if_neg h1, if_neg h2]

/-- Claim C7 counterexample: with `deltaThreshold = 0` the code's truthy
check disables the threshold stop, so `simulate(5, 0)` on `wbC7` runs 3
ticks (update; zero-update; second zero-update) even though the second
tick's delta is already `0 ≤ 0`; under the claimed stopping rule the loop
stops after 2 ticks.  The two stopping rules therefore disagree at this
input. -/
theorem c7_simulate_stopping_counterexample :
    (simulateOp wbC7 5 0).2.1 = 3 ∧ (simulateClaimed wbC7 5 0).2.1 = 2 := by
  have hp0 := propC7_first 0 []
  have hp1 := propC7_fixed 1 [⟨"propagate_once", 1⟩]
  have hp2 := propC7_fixed 2 [⟨"propagate_once", 1⟩, ⟨"propagate_once", 2⟩]
  have hb0 : wbC7 = wbC7at 1 0 [] := rfl
  have hth0 : ¬((0:ℚ) ≠ 0 ∧ (propagateOnce wbC7).2.2 ≤ 0) := by norm_num
  have hth1 : ¬((0:ℚ) ≠ 0 ∧
      (propagateOnce (wbC7at 2 1 [⟨"propagate_once", 1⟩])).2.2 ≤ 0) := by
    norm_num
  have hth2 : ¬((0:ℚ) ≠ 0 ∧
      (propagateOnce (wbC7at 2 2 [⟨"propagate_once", 1⟩,
        ⟨"propagate_once", 2⟩])).2.2 ≤ 0) := by
    norm_num
  constructor
  · have e5 : simGo 0 5 wbC7 0 0 none = simGo 0 (4 + 1) wbC7 0 0 none := rfl
    have hz0 : ¬((propagateOnce wbC7).2.1 = 0 ∧
        ((none : Option ℚ) = some 0 ∨ (none : Option ℚ) = none)) := by
      rw [hb0, hp0]
      norm_num
    have s1 : simGo 0 (4 + 1) wbC7 0 0 none =
        simGo 0 4 (wbC7at 2 1 [⟨"propagate_once", 1⟩]) 1 1 (some 1) := by
      rw [simGo_continue 0 4 wbC7 0 0 none hth0 hz0, hb0, hp0]
      norm_num
    have hz1 : ¬((propagateOnce (wbC7at 2 1 [⟨"propagate_once", 1⟩])).2.1 = 0 ∧
        (some (1:ℚ) = some 0 ∨ some (1:ℚ) = none)) := by
      rw [hp1]
      rintro ⟨-, h | h⟩
      · norm_num at h
      · cases h
    have s2 : simGo 0 (3 + 1) (wbC7at 2 1 [⟨"propagate_once", 1⟩]) 1 1
        (some 1) = simGo 0 3
          (wbC7at 2 2 [⟨"propagate_once", 1⟩, ⟨"propagate_once", 2⟩]) 2 1
          (some 0) := by
      rw [simGo_continue 0 3 _ 1 1 (some 1) hth1 hz1, hp1]
      norm_num
    have hz2 : (propagateOnce (wbC7at 2 2 [⟨"propagate_once", 1⟩,
        ⟨"propagate_once", 2⟩])).2.1 = 0 ∧
        (some (0:ℚ) = some 0 ∨ some (0:ℚ) = none) := by
      rw [hp2]
      exact ⟨rfl, Or.inl rfl⟩
    have s3 : simGo 0 (2 + 1)
        (wbC7at 2 2 [⟨"propagate_once", 1⟩, ⟨"propagate_once", 2⟩]) 2 1
        (some 0) =
        ((propagateOnce (wbC7at 2 2 [⟨"propagate_once", 1⟩,
          ⟨"propagate_once", 2⟩])).1, 3, 1) := by
      rw [simGo_stop_fix 0 2 _ 2 1 (some 0) hth2 hz2, hp2]
      norm_num
    simp only [simulateOp, e5, s1, s2, s3]
  · have e5 : simClaimGo 0 5 wbC7 0 0 none =
        simClaimGo 0 (4 + 1) wbC7 0 0 none := rfl
    have hd0 : ¬((propagateOnce wbC7).2.2 ≤ (0:ℚ)) := by
      rw [hb0, hp0]
      norm_num
    have hc0 : ¬((propagateOnce wbC7).2.1 = 0 ∧
        (none : Option Nat) = some 0) := by
      rw [hb0, hp0]
      norm_num
    have s1 : simClaimGo 0 (4 + 1) wbC7 0 0 none =
        simClaimGo 0 4 (wbC7at 2 1 [⟨"propagate_once", 1⟩]) 1 1 (some 1) := by
      rw [simClaimGo_continue 0 4 wbC7 0 0 none hd0 hc0, hb0, hp0]
      norm_num
    have hd1 : (propagateOnce (wbC7at 2 1 [⟨"propagate_once", 1⟩])).2.2 ≤
        (0:ℚ) := by
      rw [hp1]
    have s2 : simClaimGo 0 (3 + 1) (wbC7at 2 1 [⟨"propagate_once", 1⟩]) 1 1
        (some 1) =
        ((propagateOnce (wbC7at 2 1 [⟨"propagate_once", 1⟩])).1, 2, 1) := by
      rw [simClaimGo_stop_delta 0 3 _ 1 1 (some 1) hd1, hp1]
      norm_num
    simp only [simulateClaimed, e5, s1, s2]

/-! ## Claim C5: rule instantiation, deterministic ids, idempotence -/

/-- The rule of the repository's demos: for every `causes` edge from `x`
to `y`, ensure the linear constraint on `y.level`. -/
def ruleC5 : Rule :=
  ⟨"linear_cause",
   [⟨"x", some "F", []⟩, ⟨"y", some "F", []⟩],
   [⟨some "e", some "causes", some "x", some "y", []⟩],
   [⟨"\x7by\x7d.level",
     .mul (.val "\x7bx\x7d.level") (.val "\x7be\x7d.beta"), 1, none⟩]⟩

/-- A workbench with two factor nodes, one causal edge and the rule. -/
def wbC5 : WB :=
  ⟨[("x1", ⟨"x1", "F", []⟩), ("y1", ⟨"y1", "F", []⟩)],
   [("x1->y1:causes", ⟨"x1->y1:causes", "causes", "x1", "y1", []⟩)],
   [], [("linear_cause", ruleC5)], 0, []⟩

/-- The matcher finds exactly one binding environment on `wbC5`. -/
theorem matchRule_wbC5 :
    matchRule wbC5.nodes wbC5.edges ruleC5 =
      [[("x", "x1"), ("y", "y1"), ("e", "x1->y1:causes")]] := rfl

/-- Claim C5 counterexample: the constraint `run_rules` materializes on
`wbC5` is stored under `r:linear_cause:y1.level` — the id carries an `r:`
prefix — and no constraint exists under the claimed id
`linear_cause:y1.level`.  The templates were instantiated by literal
substitution (the target became `y1.level`, the expression paths became
`x1.level` and `x1->y1:causes.beta`). -/
theorem c5_constraint_id_counterexample :
    aLookup ((runRules wbC5 none).1).constraints "linear_cause:y1.level" =
      none ∧
    aLookup ((runRules wbC5 none).1).constraints "r:linear_cause:y1.level" =
      some ⟨"r:linear_cause:y1.level", "y1.level",
        .mul (.val "x1.level") (.val "x1->y1:causes.beta"), 1,
        some "linear_cause"⟩ := ⟨rfl, rfl⟩

/-- Lookup distributes over list append. -/
theorem aLookup_append {α : Type} (m1 m2 : List (String × α)) (k : String) :
    aLookup (m1 ++ m2) k =
      match aLookup m1 k with
      | some v => some v
      | none => aLookup m2 k := by
  induction m1 with
  | nil => simp [aLookup]
  | cons p rest ih =>
    by_cases h : p.1 = k
    · simp [aLookup, h]
    · simp [aLookup, h, ih]

/-- Lookup of the replaced key after the in-place branch of an upsert. -/
theorem aLookup_replace_self {α : Type} (k : String) (v : α) :
    ∀ m : List (String × α),
    aLookup (m.map (fun p => if p.1 = k then (k, v) else p)) k =
      (aLookup m k).map (fun _ => v)
  | [] => rfl
  | (pk, pv) :: rest => by
    by_cases h : pk = k
    · rw [List.map_cons, if_pos (show ((pk, pv) : String × α).1 = k from h)]
      simp [aLookup, h, aLookup_replace_self k v rest]
    · rw [List.map_cons, if_neg (show ¬((pk, pv) : String × α).1 = k from h)]
      simp [aLookup, h, aLookup_replace_self k v rest]

/-- Lookup of any other key after the in-place branch of an upsert. -/
theorem aLookup_replace_other {α : Type} (k : String) (v : α) (k' : String)
    (hne : k' ≠ k) : ∀ m : List (String × α),
    aLookup (m.map (fun p => if p.1 = k then (k, v) else p)) k' =
      aLookup m k'
  | [] => rfl
  | (pk, pv) :: rest => by
    by_cases h : pk = k
    · rw [List.map_cons, if_pos (show ((pk, pv) : String × α).1 = k from h)]
      simp [aLookup, h, Ne.symm hne, aLookup_replace_other k v k' hne rest]
    · rw [List.map_cons, if_neg (show ¬((pk, pv) : String × α).1 = k from h)]
      simp [aLookup, aLookup_replace_other k v k' hne rest]

/-- Lookup after a dict upsert: the upserted key reads back the new value,
every other key is untouched. -/
theorem aLookup_aUpsert {α : Type} (m : List (String × α)) (k : String)
    (v : α) (k' : String) :
    aLookup (aUpsert m k v) k' = if k' = k then some v else aLookup m k' := by
  unfold aUpsert
  by_cases hs : (aLookup m k).isSome
  · rw [if_pos hs]
    by_cases h : k' = k
    · subst h
      rw [if_pos rfl, aLookup_replace_self]
      obtain ⟨w, hw⟩ := Option.isSome_iff_exists.mp hs
      rw [hw]
      rfl
    · rw [if_neg h, aLookup_replace_other k v k' h]
  · rw [if_neg hs]
    by_cases h : k' = k
    · subst h
      rw [if_pos rfl, aLookup_append]
      have : aLookup m k' = none := Option.not_isSome_iff_eq_none.mp hs
      rw [this]
      simp [aLookup]
    · rw [if_neg h, aLookup_append]
      cases hh : aLookup m k' with
      | some w => rfl
      | none => simp [aLookup, Ne.symm h]

/-- Replay a list of upserts onto a dict (left to right). -/
def upsertFold {α : Type} (m : List (String × α)) (L : List (String × α)) :
    List (String × α) :=
  L.foldl (fun acc p => aUpsert acc p.1 p.2) m

/-- The last value a key receives in an upsert sequence, if any. -/
def lastVal {α : Type} : List (String × α) → String → Option α
  | [], _ => none
  | (k', v) :: rest, k =>
    match lastVal rest k with
    | some w => some w
    | none => if k' = k then some v else none

/-- Lookup after replaying an upsert sequence: the last upserted value for
the key wins; keys the sequence never touches read from the base dict. -/
theorem aLookup_upsertFold {α : Type} (k : String) :
    ∀ (L : List (String × α)) (m : List (String × α)),
    aLookup (upsertFold m L) k =
      match lastVal L k with
      | some v => some v
      | none => aLookup m k
  | [], m => rfl
  | (k0, v0) :: L, m => by
    have ih := aLookup_upsertFold k L (aUpsert m k0 v0)
    simp only [upsertFold, List.foldl_cons] at ih ⊢
    rw [ih]
    cases hl : lastVal L k with
    | some w => simp [lastVal, hl]
    | none =>
      by_cases h : k0 = k
      · simp [lastVal, hl, h, aLookup_aUpsert]
      · simp [lastVal, hl, h, aLookup_aUpsert, Ne.symm h]

/-- Key membership (as lookup success) after an upsert. -/
theorem aLookup_isSome_aUpsert {α : Type} (m : List (String × α))
    (k : String) (v : α) (k' : String) :
    (aLookup (aUpsert m k v) k').isSome =
      ((aLookup m k').isSome || (k' = k)) := by
  rw [aLookup_aUpsert]
  by_cases h : k' = k
  · simp [h]
  · simp [h]

/-- The key list after an upsert: unchanged when the key was present,
extended by the key otherwise. -/
theorem aKeys_aUpsert {α : Type} (m : List (String × α)) (k : String)
    (v : α) :
    aKeys (aUpsert m k v) =
      if (aLookup m k).isSome then aKeys m else aKeys m ++ [k] := by
  unfold aUpsert
  by_cases hs : (aLookup m k).isSome
  · rw [if_pos hs, if_pos hs]
    unfold aKeys
    rw [List.map_map]
    apply List.map_congr_left
    intro p _
    by_cases h : p.1 = k
    · simp [h]
    · simp [h]
  · rw [if_neg hs, if_neg hs]
    simp [aKeys]

/-- A key occurring in the key list looks up successfully. -/
theorem aLookup_isSome_of_mem_keys {α : Type} :
    ∀ (m : List (String × α)) (a : String), a ∈ aKeys m →
    (aLookup m a).isSome
  | [], a, ha => by cases ha
  | (qk, qv) :: rest, a, ha => by
    simp only [aKeys, List.map_cons] at ha
    rcases List.mem_cons.mp ha with h | h
    · simp [aLookup, h.symm]
    · by_cases hqa : qk = a
      · simp [aLookup, hqa]
      · simp only [aLookup, if_neg hqa]
        exact aLookup_isSome_of_mem_keys rest a h

/-- Upserts preserve key distinctness. -/
theorem aKeys_nodup_aUpsert {α : Type} (m : List (String × α)) (k : String)
    (v : α) (h : (aKeys m).Nodup) : (aKeys (aUpsert m k v)).Nodup := by
  rw [aKeys_aUpsert]
  by_cases hs : (aLookup m k).isSome
  · rwa [if_pos hs]
  · rw [if_neg hs]
    rw [List.nodup_append]
    refine ⟨h, List.nodup_singleton k, ?_⟩
    intro a ha hb
    simp at hb
    subst hb
    exact hs (aLookup_isSome_of_mem_keys m a ha)

/-- Replaying an upsert sequence preserves key distinctness. -/
theorem aKeys_nodup_upsertFold {α : Type} :
    ∀ (L : List (String × α)) (m : List (String × α)),
    (aKeys m).Nodup → (aKeys (upsertFold m L)).Nodup
  | [], m, h => h
  | (k0, v0) :: L, m, h => by
    simp only [upsertFold, List.foldl_cons]
    exact aKeys_nodup_upsertFold L (aUpsert m k0 v0)
      (aKeys_nodup_aUpsert m k0 v0 h)

/-- The constraint instantiations one environment produces for a rule's
actions: target and expression templates substituted, id derived as
`r:<ruleName>:<instantiatedTarget>`, strength taken as the action's
number, note defaulting to the rule name. -/
def instActs (nm : String) (env : Env) (acts : List RuleAction) :
    List (String × Constraint) :=
  acts.map (fun act =>
    let target := fmtStr act.target env
    (cidOf nm target,
     ⟨cidOf nm target, target, fmtExpr env act.expr, act.strength,
      some (act.note.getD nm)⟩))

/-- All instantiations of one rule over its match environments. -/
def instEnvs (rule : Rule) (envs : List Env) : List (String × Constraint) :=
  (envs.map (fun env => instActs rule.name env rule.actions)).flatten

/-- All instantiations of a rule list against fixed node/edge stores. -/
def instRules (nodes : List (String × Node)) (edges : List (String × Edge))
    (rs : List Rule) : List (String × Constraint) :=
  (rs.map (fun r => instEnvs r (matchRule nodes edges r))).flatten

/-- Source `upsert_constraint` only touches constraints, version and provenance. -/
theorem upsertConstraint_frame (wb : WB) (i t : String) (e : Expr) (s : ℚ)
    (n : Option String) :
    (upsertConstraint wb i t e s n).1.nodes = wb.nodes ∧
    (upsertConstraint wb i t e s n).1.edges = wb.edges ∧
    (upsertConstraint wb i t e s n).1.rules = wb.rules ∧
    (upsertConstraint wb i t e s n).1.constraints =
      aUpsert wb.constraints i ⟨i, t, e, s, n⟩ :=
  ⟨rfl, rfl, rfl, rfl⟩

/-- The action loop applies exactly the instantiations of `instActs`. -/
theorem applyActions_effect (nm : String) (env : Env) :
    ∀ (acts : List RuleAction) (wb : WB) (a : Nat),
    (applyActions nm env acts wb a).1.constraints =
      upsertFold wb.constraints (instActs nm env acts) ∧
    (applyActions nm env acts wb a).1.nodes = wb.nodes ∧
    (applyActions nm env acts wb a).1.edges = wb.edges ∧
    (applyActions nm env acts wb a).1.rules = wb.rules
  | [], wb, a => ⟨rfl, rfl, rfl, rfl⟩
  | act :: rest, wb, a => by
    have ih := applyActions_effect nm env rest
      ((upsertConstraint wb (cidOf nm (fmtStr act.target env))
        (fmtStr act.target env) (fmtExpr env act.expr) act.strength
        (some (act.note.getD nm))).1) (a + 1)
    simp only [applyActions]
    refine ⟨?_, ?_, ?_, ?_⟩
    · rw [ih.1]
      simp only [instActs, List.map_cons, upsertFold, List.foldl_cons]
      rfl
    · rw [ih.2.1]
      rfl
    · rw [ih.2.2.1]
      rfl
    · rw [ih.2.2.2]
      rfl

/-- The environment loop (without a limit) applies `instEnvs`. -/
theorem applyEnvs_effect (rule : Rule) :
    ∀ (envs : List Env) (wb : WB) (a : Nat),
    (applyEnvs rule none envs wb a).1.constraints =
      upsertFold wb.constraints (instEnvs rule envs) ∧
    (applyEnvs rule none envs wb a).1.nodes = wb.nodes ∧
    (applyEnvs rule none envs wb a).1.edges = wb.edges ∧
    (applyEnvs rule none envs wb a).1.rules = wb.rules
  | [], wb, a => ⟨rfl, rfl, rfl, rfl⟩
  | env :: rest, wb, a => by
    have hact := applyActions_effect rule.name env rule.actions wb a
    have ih := applyEnvs_effect rule rest
      (applyActions rule.name env rule.actions wb a).1
      (applyActions rule.name env rule.actions wb a).2
    simp only [applyEnvs, limitHit, Bool.false_eq_true, if_false]
    refine ⟨?_, ?_, ?_, ?_⟩
    · rw [ih.1, hact.1]
      simp only [instEnvs, List.map_cons, List.flatten_cons, upsertFold,
        List.foldl_append]
    · rw [ih.2.1, hact.2.1]
    · rw [ih.2.2.1, hact.2.2.1]
    · rw [ih.2.2.2, hact.2.2.2]

/-- The rule loop (without a limit) applies `instRules` against the
initial node/edge stores, which it never modifies. -/
theorem runRulesRules_effect :
    ∀ (rs : List Rule) (wb : WB) (a : Nat),
    (runRulesRules none rs wb a).1.constraints =
      upsertFold wb.constraints (instRules wb.nodes wb.edges rs) ∧
    (runRulesRules none rs wb a).1.nodes = wb.nodes ∧
    (runRulesRules none rs wb a).1.edges = wb.edges ∧
    (runRulesRules none rs wb a).1.rules = wb.rules
  | [], wb, a => ⟨rfl, rfl, rfl, rfl⟩
  | r :: rest, wb, a => by
    have henv := applyEnvs_effect r (matchRule wb.nodes wb.edges r) wb a
    have ih := runRulesRules_effect rest
      (applyEnvs r none (matchRule wb.nodes wb.edges r) wb a).1
      (applyEnvs r none (matchRule wb.nodes wb.edges r) wb a).2
    simp only [runRulesRules]
    refine ⟨?_, ?_, ?_, ?_⟩
    · rw [ih.1, henv.1, henv.2.1, henv.2.2.1]
      simp only [instRules, List.map_cons, List.flatten_cons, upsertFold,
        List.foldl_append]
    · rw [ih.2.1, henv.2.1]
    · rw [ih.2.2.1, henv.2.2.1]
    · rw [ih.2.2.2, henv.2.2.2]

/-- Source `run_rules` (no limit): full effect characterization. -/
theorem runRules_effect (wb : WB) :
    (runRules wb none).1.constraints =
      upsertFold wb.constraints
        (instRules wb.nodes wb.edges (aVals wb.rules)) ∧
    (runRules wb none).1.nodes = wb.nodes ∧
    (runRules wb none).1.edges = wb.edges ∧
    (runRules wb none).1.rules = wb.rules := by
  have h := runRulesRules_effect (aVals wb.rules) wb 0
  simp only [runRules, bump]
  exact h

/-- Claim C5 (amended): for every rule match environment `run_rules`
instantiates each action's target and expression templates by literal
placeholder substitution, takes the strength as the action's number, and
upserts the result under the deterministic id
`r:<ruleName>:<instantiatedTarget>` (the id carries an `r:` prefix the
claim omits); consequently running the rules twice with no intervening
graph change leaves the constraint dict extensionally unchanged — every id
maps to the same constraint — and introduces no duplicate ids. -/
theorem c5_rule_idempotence_amended :
    (∀ wb, (runRules wb none).1.constraints =
      upsertFold wb.constraints
        (instRules wb.nodes wb.edges (aVals wb.rules))) ∧
    (∀ wb k,
      aLookup ((runRules (runRules wb none).1 none).1).constraints k =
        aLookup ((runRules wb none).1).constraints k) ∧
    (∀ wb, (aKeys wb.constraints).Nodup →
      (aKeys ((runRules (runRules wb none).1 none).1).constraints).Nodup) := by
  have key : ∀ wb : WB,
      ((runRules (runRules wb none).1 none).1).constraints =
        upsertFold ((runRules wb none).1).constraints
          (instRules wb.nodes wb.edges (aVals wb.rules)) := by
    intro wb
    have h1 := runRules_effect wb
    have h2 := runRules_effect (runRules wb none).1
    rw [h2.1, h1.2.1, h1.2.2.1, h1.2.2.2]
  refine ⟨fun wb => (runRules_effect wb).1, ?_, ?_⟩
  · intro wb k
    have h1 := (runRules_effect wb).1
    rw [key wb, aLookup_upsertFold, h1, aLookup_upsertFold]
    cases hl : lastVal (instRules wb.nodes wb.edges (aVals wb.rules)) k with
    | some v => rfl
    | none => rfl
  · intro wb hnd
    rw [key wb, (runRules_effect wb).1]
    exact aKeys_nodup_upsertFold _ _ (aKeys_nodup_upsertFold _ _ hnd)

/-- Witness for the amended rule theorem: the concrete workbench `wbC5`
has distinct constraint ids after a double rule run. -/
theorem c5_rule_idempotence_amended_witness :
    (aKeys wbC5.constraints).Nodup ∧
    (aKeys ((runRules (runRules wbC5 none).1 none).1).constraints).Nodup :=
  ⟨List.nodup_nil, c5_rule_idempotence_amended.2.2 wbC5 List.nodup_nil⟩

/-! ## Claim C9: the weighted-mean collapse policy -/

/-- An Interval-valued candidate at confidence 1. -/
def b9a : Branch := ⟨"a", .itv 0 2, "m1", 1⟩

/-- A Scalar-valued candidate at confidence 1. -/
def b9b : Branch := ⟨"b", .num 10, "m2", 1⟩

/-- The two candidates of the counterexample. -/
def bs9 : List Branch := [b9a, b9b]

/-- The node holding the candidates for its `t` attribute. -/
def nd9 : HNode2 := ⟨"n", "T", [("branches", .branches [("t", bs9)])], [], []⟩

/-- A hybrid workbench holding the candidates for `n.t`. -/
def wb9 : HybridWB2 := ⟨[("n", nd9)], 0, []⟩

/-- The candidate the code's `weighted_mean` arm synthesizes on `bs9`. -/
def chosen9 : Branch :=
  ⟨"weighted", .itv 5 6, "Weighted collapse of branches", 1⟩

/-- The node after the collapse commit. -/
def nd9after : HNode2 :=
  ⟨"n", "T",
   [("branches", .branches [("t", bs9)]), ("t", .v (.itv 5 6))],
   ["Collapsed from branches via weighted_mean"],
   [⟨"n.t", none, .v (.itv 5 6), "collapse:weighted_mean",
     some "Collapsed from branches via weighted_mean"⟩]⟩

/-- The workbench after the collapse commit. -/
def wb9after : HybridWB2 := ⟨[("n", nd9after)], 1, ["set_attr"]⟩

/-- Claim C9 counterexample: `weighted_mean` does NOT exclude non-Interval
candidates — `to_interval` promotes the Scalar 10 to the degenerate
interval, so the code commits Interval(5, 6) at `n.t`, while the collapse
the claim describes (confidence-weighted means over Interval-valued
candidates only) yields Interval(0, 2). -/
theorem c9_weighted_mean_counterexample :
    weightedChosen b9a [b9b] = chosen9 ∧
    weightedValueSpec bs9 = some (.itv 0 2) ∧
    chosen9.value ≠ HV.itv 0 2 ∧
    collapseBranches wb9 "n.t" "weighted_mean" =
      .ok (wb9after, some chosen9) ∧
    (aLookup wb9after.nodes "n").map (fun n1 => aLookup n1.attrs "t") =
      some (some (.v (.itv 5 6))) := by
  have hws : weightedSums (b9a :: [b9b]) = (11, 2, 2) := by
    norm_num [weightedSums, toItv, itvMid, itvWidth, b9a, b9b]
  have hwc : weightedChosen b9a [b9b] = chosen9 := by
    rw [weightedChosen, hws]
    norm_num [mkItvH, chosen9]
  have hspec : weightedValueSpec bs9 = some (.itv 0 2) := by
    have hs : weightedSumsSpec bs9 = (1, 2, 1) := by
      norm_num [weightedSumsSpec, bs9, b9a, b9b, itvMid, itvWidth]
    rw [weightedValueSpec, hs]
    norm_num [mkItvH]
  have hne : chosen9.value ≠ HV.itv 0 2 := by
    intro h
    rw [chosen9] at h
    cases h
  have hsp : splitPath "n.t" = some ("n", "t") := rfl
  have hnd : aLookup wb9.nodes "n" = some nd9 := rfl
  have hbr : branchesOf nd9 "t" = b9a :: [b9b] := rfl
  have hcommit : collapseBranches wb9 "n.t" "weighted_mean" =
      .ok (wb9after, some chosen9) := by
    have hset : HybridWB2.setAttr wb9 "n.t" (.v chosen9.value)
        ("collapse:" ++ "weighted_mean")
        (some ("Collapsed from branches via " ++ "weighted_mean")) =
        .ok (wb9after, "n", "t") := rfl
    simp only [collapseBranches, hsp, hnd, hbr,
      if_neg (show ¬("weighted_mean" = "max_conf") by decide),
      if_pos (show "weighted_mean" = "weighted_mean" from rfl), if_true,
      eq_self_iff_true, hwc, hset]
  exact ⟨hwc, hspec, hne, hcommit, rfl⟩

/-- Dropping a candidate `to_interval` cannot convert does not change the
weighted sums. -/
theorem weightedSums_skip (b0 b : Branch) (bs1 bs2 : List Branch)
    (hb : toItv b.value = none) :
    weightedSums (b0 :: (bs1 ++ b :: bs2)) =
      weightedSums (b0 :: (bs1 ++ bs2)) := by
  unfold weightedSums
  rw [show b0 :: (bs1 ++ b :: bs2) = (b0 :: bs1) ++ b :: bs2 from rfl,
    show b0 :: (bs1 ++ bs2) = (b0 :: bs1) ++ bs2 from rfl,
    List.foldl_append, List.foldl_append, List.foldl_cons]
  congr 1
  simp [hb]

/-- Claim C9 (amended): under `weighted_mean` the committed value is the
Interval rebuilt from the confidence-weighted mean of midpoints and of
widths over the candidates `to_interval` converts — Interval-valued AND
number-valued candidates, numbers as degenerate intervals; only candidates
whose values are neither (where `to_interval` yields None) are excluded,
and dropping such a candidate (other than the fallback head) never changes
the collapse.  When no weight accumulates the first candidate is chosen
as is; otherwise the synthetic `weighted` candidate is committed through
`set_attr` at the target path. -/
theorem c9_weighted_mean_amended :
    (∀ b0 b bs1 bs2, toItv b.value = none →
      weightedChosen b0 (bs1 ++ b :: bs2) = weightedChosen b0 (bs1 ++ bs2)) ∧
    (∀ b0 bs, (weightedSums (b0 :: bs)).2.2 ≠ 0 →
      weightedChosen b0 bs =
        ⟨"weighted",
         mkItvH ((weightedSums (b0 :: bs)).1 / (weightedSums (b0 :: bs)).2.2 -
             (weightedSums (b0 :: bs)).2.1 / (weightedSums (b0 :: bs)).2.2 / 2)
           ((weightedSums (b0 :: bs)).1 / (weightedSums (b0 :: bs)).2.2 +
             (weightedSums (b0 :: bs)).2.1 / (weightedSums (b0 :: bs)).2.2 / 2),
         "Weighted collapse of branches", 1⟩) ∧
    (∀ b0 bs, (weightedSums (b0 :: bs)).2.2 = 0 →
      weightedChosen b0 bs = b0) ∧
    (∀ (wb : HybridWB2) path ent key n b0 bs,
      splitPath path = some (ent, key) →
      aLookup wb.nodes ent = some n →
      branchesOf n key = b0 :: bs →
      ∃ wb1, collapseBranches wb path "weighted_mean" =
          .ok (wb1, some (weightedChosen b0 bs)) ∧
        (aLookup wb1.nodes ent).map (fun n1 => aLookup n1.attrs key) =
          some (some (.v (weightedChosen b0 bs).value))) := by
  refine ⟨?_, ?_, ?_, ?_⟩
  · intro b0 b bs1 bs2 hb
    unfold weightedChosen
    rw [weightedSums_skip b0 b bs1 bs2 hb]
  · intro b0 bs h
    unfold weightedChosen
    rw [if_neg h]
  · intro b0 bs h
    unfold weightedChosen
    rw [if_pos h]
  · intro wb path ent key n b0 bs hsp hn hbr
    refine ⟨⟨aUpsert wb.nodes ent
        { n with
          attrs := aUpsert n.attrs key (.v (weightedChosen b0 bs).value)
          history := n.history ++ [⟨path, aLookup n.attrs key,
            .v (weightedChosen b0 bs).value, "collapse:" ++ "weighted_mean",
            some ("Collapsed from branches via " ++ "weighted_mean")⟩]
          semantics := n.semantics ++
            ["Collapsed from branches via " ++ "weighted_mean"] },
      wb.version + 1, wb.provenance ++ ["set_attr"]⟩, ?_, ?_⟩
    · simp only [collapseBranches, hsp, hn, hbr,
        if_neg (show ¬("weighted_mean" = "max_conf") by decide),
        if_pos (show "weighted_mean" = "weighted_mean" from rfl), if_true,
        eq_self_iff_true, HybridWB2.setAttr]
    · simp [aLookup_aUpsert]

/-- Witness for the amended collapse theorem: dropping a string-valued
candidate leaves the collapse of `bs9` unchanged. -/
theorem c9_weighted_mean_amended_witness :
    toItv (HV.strv "gloss") = none ∧
    weightedChosen b9a ([b9b] ++ ⟨"c", .strv "gloss", "m3", 1⟩ :: []) =
      weightedChosen b9a ([b9b] ++ []) :=
  ⟨rfl, c9_weighted_mean_amended.1 b9a ⟨"c", .strv "gloss", "m3", 1⟩
    [b9b] [] rfl⟩
